import Mathlib

/-!
Shallow embedding of the quiz core of `src/quiz/routes_quiz.py` together with
the `QuizResult` persistence from `src/models.py`.

Modelling conventions:
* Python strings are `List Char`.  Python's `str.strip()`, `str.upper()` and
  `int(...)` are modelled on ASCII data (the repository only ever feeds them
  ASCII labels and form fields); Unicode-only behaviours (Unicode whitespace,
  Unicode digits) are outside the model.
* `json.loads` is modelled by an executable JSON parser (`jloads`) following
  the grammar accepted by Python's `json` module: RFC 8259 JSON plus the
  `NaN`/`Infinity`/`-Infinity` literals.  Numbers are held exactly
  (integers as `Int`, decimals as `ℚ`); float rounding and the textual
  rendering of floats are not modelled (no claim depends on them).
  Lone surrogate `\uXXXX` escapes are rejected by the model.
* Python dicts are association lists without duplicate keys (the parser
  dedupes with last-value-wins, first-position-wins, exactly like `dict`
  construction); updates keep the position of an existing key.
* Fallible Python code (AttributeError / TypeError on bad shapes) is
  modelled with `Except PyErr`.
* The database is a list of rows; the `timestamp` column is assigned by the
  database server (`db.func.current_timestamp()`), hence not part of the model.
-/

/-! ### Characters and Python string helpers -/

/-- The backtick character (code 96). -/
def bq : Char := Char.ofNat 96

/-- Whitespace stripped by Python's `str.strip()` (ASCII part). -/
def pyWs (c : Char) : Bool :=
  c == ' ' || c == '\t' || c == '\n' || c == '\r' || c == '\x0b' || c == '\x0c'

/-- Model of Python `str.strip()`. -/
def pyStrip (cs : List Char) : List Char :=
  ((cs.dropWhile pyWs).reverse.dropWhile pyWs).reverse

/-- Model of Python `str.upper()` (ASCII). -/
def upperl (cs : List Char) : List Char := cs.map Char.toUpper

/-- Whitespace skipped by the JSON grammar. -/
def jsonWs (c : Char) : Bool :=
  c == ' ' || c == '\t' || c == '\n' || c == '\r'

/-- Skip JSON whitespace. -/
def skipWs (cs : List Char) : List Char := cs.dropWhile jsonWs

/-! ### JSON values (result of `json.loads`) -/

/-- A value produced by `json.loads`: `null`, booleans, integers, floats
(decimal/exponent numerals, held exactly as rationals), the `NaN` and
`Infinity` constants, strings, arrays and objects. -/
inductive Json where
  | null : Json
  | bool (b : Bool) : Json
  | num (n : Int) : Json
  | fnum (q : ℚ) : Json
  | nanc : Json
  | infc (neg : Bool) : Json
  | str (s : List Char) : Json
  | arr (items : List Json) : Json
  | obj (fields : List (List Char × Json)) : Json

/-- Python `dict` assignment `d[k] = v`: update in place when the key exists
(keeping its position), append otherwise. -/
def dictInsert (kvs : List (List Char × Json)) (k : List Char) (v : Json) :
    List (List Char × Json) :=
  if kvs.any (fun p => p.1 == k) then
    kvs.map (fun p => if p.1 == k then (k, v) else p)
  else kvs ++ [(k, v)]

/-- Python dict lookup on a deduplicated association list. -/
def jget (q : Json) (k : List Char) : Option Json :=
  match q with
  | .obj kvs => List.lookup k kvs
  | _ => none

/-- Python `d.get(k, default)` on a JSON object (total form; only applied to
objects in the model, mirroring the code paths). -/
def jsonGetD (q : Json) (k : List Char) (d : Json) : Json :=
  ((jget q k).getD d)

/-- Python `d[k] = v` on a JSON object (identity on non-objects; the code only
reaches it for dicts). -/
def jsonSet (q : Json) (k : List Char) (v : Json) : Json :=
  match q with
  | .obj kvs => .obj (dictInsert kvs k v)
  | _ => q

/-! ### JSON parser: model of `json.loads` -/

/-- Hexadecimal digit value. -/
def hexVal (c : Char) : Option Nat :=
  if '0' ≤ c ∧ c ≤ '9' then some (c.toNat - 48)
  else if 'a' ≤ c ∧ c ≤ 'f' then some (c.toNat - 87)
  else if 'A' ≤ c ∧ c ≤ 'F' then some (c.toNat - 55)
  else none

/-- Decode the four hex digits of a `\uXXXX` escape. -/
def hex4 (a b c d : Char) : Option Nat := do
  let va ← hexVal a
  let vb ← hexVal b
  let vc ← hexVal c
  let vd ← hexVal d
  pure (((va * 16 + vb) * 16 + vc) * 16 + vd)

/-- Parse the body of a JSON string (the opening quote already consumed),
returning the decoded characters and the rest of the input.  Unescaped
control characters are rejected (Python's default `strict=True`); surrogate
pairs are combined; lone surrogates are rejected by the model. -/
def parseStringBody : List Char → Option (List Char × List Char)
  | [] => none
  | '"' :: rest => some ([], rest)
  | '\\' :: esc =>
    match esc with
    | '"' :: rest => (parseStringBody rest).map (fun p => ('"' :: p.1, p.2))
    | '\\' :: rest => (parseStringBody rest).map (fun p => ('\\' :: p.1, p.2))
    | '/' :: rest => (parseStringBody rest).map (fun p => ('/' :: p.1, p.2))
    | 'b' :: rest => (parseStringBody rest).map (fun p => ('\x08' :: p.1, p.2))
    | 'f' :: rest => (parseStringBody rest).map (fun p => ('\x0c' :: p.1, p.2))
    | 'n' :: rest => (parseStringBody rest).map (fun p => ('\n' :: p.1, p.2))
    | 'r' :: rest => (parseStringBody rest).map (fun p => ('\r' :: p.1, p.2))
    | 't' :: rest => (parseStringBody rest).map (fun p => ('\t' :: p.1, p.2))
    | 'u' :: a :: b :: c :: d :: rest =>
      match hex4 a b c d with
      | none => none
      | some n =>
        if n < 0xD800 ∨ 0xE000 ≤ n then
          (parseStringBody rest).map (fun p => (Char.ofNat n :: p.1, p.2))
        else if n < 0xDC00 then
          match rest with
          | '\\' :: 'u' :: a2 :: b2 :: c2 :: d2 :: rest2 =>
            match hex4 a2 b2 c2 d2 with
            | none => none
            | some m =>
              if 0xDC00 ≤ m ∧ m < 0xE000 then
                (parseStringBody rest2).map (fun p =>
                  (Char.ofNat (0x10000 + (n - 0xD800) * 0x400 + (m - 0xDC00)) :: p.1, p.2))
              else none
          | _ => none
        else none
    | _ => none
  | c :: rest =>
    if c.toNat < 0x20 then none
    else (parseStringBody rest).map (fun p => (c :: p.1, p.2))

/-- Accumulate decimal digits (value and count). -/
def digitsAcc : List Char → Nat → Nat → (Nat × Nat × List Char)
  | c :: rest, acc, cnt =>
    if c.isDigit then digitsAcc rest (acc * 10 + (c.toNat - 48)) (cnt + 1)
    else (acc, cnt, c :: rest)
  | [], acc, cnt => (acc, cnt, [])

/-- Exact rational value of a parsed numeral
`sign? iv . (f with fl digits) e`. -/
def mkRatNum (sign : Bool) (iv f fl : Nat) (e : Int) : ℚ :=
  let base : ℚ := ((iv * 10 ^ fl + f : Nat) : ℚ) / ((10 ^ fl : Nat) : ℚ)
  let m : ℚ := base * (10 : ℚ) ^ e
  if sign then -m else m

/-- Exponent digits after `e`/`E` (and optional sign). -/
def parseExpDigits (sign : Bool) (iv f fl : Nat) (cs : List Char) :
    Option (Json × List Char) :=
  let (esign, cs') :=
    match cs with
    | '+' :: r => (false, r)
    | '-' :: r => (true, r)
    | _ => (false, cs)
  match cs' with
  | c :: _ =>
    if c.isDigit then
      let (v, _, r2) := digitsAcc cs' 0 0
      some (.fnum (mkRatNum sign iv f fl (if esign then -(Int.ofNat v) else Int.ofNat v)), r2)
    else none
  | [] => none

/-- Optional exponent; without one, a numeral with no fraction is an `Int`. -/
def parseExpPart (sign : Bool) (iv f fl : Nat) (isFloat : Bool) (cs : List Char) :
    Option (Json × List Char) :=
  match cs with
  | 'e' :: r => parseExpDigits sign iv f fl r
  | 'E' :: r => parseExpDigits sign iv f fl r
  | _ =>
    if isFloat then some (.fnum (mkRatNum sign iv f fl 0), cs)
    else some (.num (if sign then -(Int.ofNat iv) else Int.ofNat iv), cs)

/-- Optional fraction after the integer part (a `.` must be followed by at
least one digit). -/
def parseNumTail (sign : Bool) (iv : Nat) (cs : List Char) : Option (Json × List Char) :=
  match cs with
  | '.' :: r =>
    match r with
    | c :: _ =>
      if c.isDigit then
        let (fv, fl, cs2) := digitsAcc r 0 0
        parseExpPart sign iv fv fl true cs2
      else none
    | [] => none
  | _ => parseExpPart sign iv 0 0 false cs

/-- Parse a JSON number at the head of the input (grammar of RFC 8259:
optional minus, `0` or a nonzero-led digit run, optional fraction, optional
exponent).  Pure integers become `Json.num`; anything with a fraction or
exponent becomes `Json.fnum` holding the exact rational value. -/
def parseNumber (cs : List Char) : Option (Json × List Char) :=
  let sign : Bool := match cs with | '-' :: _ => true | _ => false
  let cs1 := match cs with | '-' :: r => r | _ => cs
  match cs1 with
  | c :: rest =>
    if c == '0' then parseNumTail sign 0 rest
    else if c.isDigit then
      let (iv, _, r2) := digitsAcc rest (c.toNat - 48) 1
      parseNumTail sign iv r2
    else none
  | [] => none

/-- Build a Python dict from parsed members (duplicate keys: the first
occurrence keeps its position, the last value wins). -/
def mkDict (kvs : List (List Char × Json)) : List (List Char × Json) :=
  kvs.foldl (fun acc kv => dictInsert acc kv.1 kv.2) []

mutual

/-- Parse a JSON value (fuel-indexed; `jloads` supplies enough fuel). -/
def parseValue : Nat → List Char → Option (Json × List Char)
  | 0, _ => none
  | fuel + 1, cs =>
    match skipWs cs with
    | '{' :: rest => (parseObjBody fuel rest).map (fun p => (.obj (mkDict p.1), p.2))
    | '[' :: rest => (parseArrBody fuel rest).map (fun p => (.arr p.1, p.2))
    | '"' :: rest => (parseStringBody rest).map (fun p => (.str p.1, p.2))
    | 't' :: 'r' :: 'u' :: 'e' :: rest => some (.bool true, rest)
    | 'f' :: 'a' :: 'l' :: 's' :: 'e' :: rest => some (.bool false, rest)
    | 'n' :: 'u' :: 'l' :: 'l' :: rest => some (.null, rest)
    | 'N' :: 'a' :: 'N' :: rest => some (.nanc, rest)
    | 'I' :: 'n' :: 'f' :: 'i' :: 'n' :: 'i' :: 't' :: 'y' :: rest => some (.infc false, rest)
    | '-' :: 'I' :: 'n' :: 'f' :: 'i' :: 'n' :: 'i' :: 't' :: 'y' :: rest =>
      some (.infc true, rest)
    | cs' => parseNumber cs'

/-- Array elements after `[`. -/
def parseArrBody : Nat → List Char → Option (List Json × List Char)
  | 0, _ => none
  | fuel + 1, cs =>
    match skipWs cs with
    | ']' :: rest => some ([], rest)
    | cs' =>
      match parseValue fuel cs' with
      | none => none
      | some (v, r1) =>
        match parseArrRest fuel r1 with
        | none => none
        | some (vs, r2) => some (v :: vs, r2)

/-- Array continuation: `,` element or `]`. -/
def parseArrRest : Nat → List Char → Option (List Json × List Char)
  | 0, _ => none
  | fuel + 1, cs =>
    match skipWs cs with
    | ']' :: rest => some ([], rest)
    | ',' :: rest =>
      match parseValue fuel rest with
      | none => none
      | some (v, r1) =>
        match parseArrRest fuel r1 with
        | none => none
        | some (vs, r2) => some (v :: vs, r2)
    | _ => none

/-- Object members after `{`. -/
def parseObjBody : Nat → List Char → Option (List (List Char × Json) × List Char)
  | 0, _ => none
  | fuel + 1, cs =>
    match skipWs cs with
    | '}' :: rest => some ([], rest)
    | '"' :: rest =>
      match parseMember fuel rest with
      | none => none
      | some (kv, r1) =>
        match parseObjRest fuel r1 with
        | none => none
        | some (kvs, r2) => some (kv :: kvs, r2)
    | _ => none

/-- Object continuation: `,` member or `}`. -/
def parseObjRest : Nat → List Char → Option (List (List Char × Json) × List Char)
  | 0, _ => none
  | fuel + 1, cs =>
    match skipWs cs with
    | '}' :: rest => some ([], rest)
    | ',' :: rest =>
      match skipWs rest with
      | '"' :: r1 =>
        match parseMember fuel r1 with
        | none => none
        | some (kv, r2) =>
          match parseObjRest fuel r2 with
          | none => none
          | some (kvs, r3) => some (kv :: kvs, r3)
      | _ => none
    | _ => none

/-- One `"key" : value` member, the opening quote of the key consumed. -/
def parseMember : Nat → List Char → Option ((List Char × Json) × List Char)
  | 0, _ => none
  | fuel + 1, cs =>
    match parseStringBody cs with
    | none => none
    | some (k, r1) =>
      match skipWs r1 with
      | ':' :: r2 =>
        match parseValue fuel r2 with
        | none => none
        | some (v, r3) => some ((k, v), r3)
      | _ => none

end

/-- Model of `json.loads`: parse one value, allow surrounding whitespace,
reject trailing data. -/
def jloads (cs : List Char) : Option Json :=
  match parseValue (cs.length + 1) cs with
  | some (v, rest) => if skipWs rest = [] then some v else none
  | none => none

/-! ### `extract_json_block`: fence regex and bracket slicing -/

/-- The three-backtick fence delimiter. -/
def ticks : List Char := [bq, bq, bq]

/-- Does `pat` occur as a contiguous sublist of `cs`?  (Used to state where a
fence delimiter occurs.) -/
def occursSub (pat : List Char) : List Char → Bool
  | [] => pat.isPrefixOf ([] : List Char)
  | c :: cs => pat.isPrefixOf (c :: cs) || occursSub pat cs

/-- Does the input start with a case-insensitive `json` tag?  (The regex
`(?:json)?` with `re.I`.) -/
def tagIsJson (cs : List Char) : Bool :=
  match cs with
  | a :: b :: c :: d :: _ =>
    a.toLower == 'j' && b.toLower == 's' && c.toLower == 'o' && d.toLower == 'n'
  | _ => false

/-- The lazy group `(.*?)` before the closing fence: the characters up to the
first occurrence of three backticks, or `none` if there is no closing fence. -/
def takeUntilTicks : List Char → Option (List Char)
  | [] => none
  | c :: cs =>
    if ticks.isPrefixOf (c :: cs) then some []
    else (takeUntilTicks cs).map (fun g => c :: g)

/-- Model of `re.search(r"```(?:json)?(.*?)```", text, re.S | re.I)`: the
leftmost position opening a fence that also has a closing fence wins, the
optional tag is consumed greedily, the group is lazy. -/
def fenceSearch : List Char → Option (List Char)
  | [] => none
  | c :: cs =>
    if ticks.isPrefixOf (c :: cs) then
      let after := (c :: cs).drop 3
      let body := if tagIsJson after then after.drop 4 else after
      match takeUntilTicks body with
      | some g => some g
      | none => fenceSearch cs
    else fenceSearch cs

/-- Index of the first occurrence of a character (`str.find`). -/
def findCharIdx (c : Char) : List Char → Option Nat
  | [] => none
  | x :: xs => if x == c then some 0 else (findCharIdx c xs).map (fun i => i + 1)

/-- Index of the last occurrence of a character (`str.rfind`). -/
def rfindCharIdx (c : Char) (cs : List Char) : Option Nat :=
  (findCharIdx c cs.reverse).map (fun i => cs.length - 1 - i)

/-- Python slice `t[s : e + 1]`. -/
def pySliceIncl (cs : List Char) (s e : Nat) : List Char :=
  (cs.drop s).take (e + 1 - s)

/-- Model of `extract_json_block` from `src/quiz/routes_quiz.py`: strip a code
fence if present, then slice from the first `[` to the last `]` when both
exist in that order, else pass the text through. -/
def extract_json_block (text : List Char) : List Char :=
  let t := match fenceSearch text with
           | some g => pyStrip g
           | none => text
  match findCharIdx '[' t, rfindCharIdx ']' t with
  | some s, some e => if s < e then pySliceIncl t s e else t
  | _, _ => t

/-! ### Python value helpers used by the normalization loop -/

/-- Errors the Python code can raise on unexpected value shapes. -/
inductive PyErr where
  | attributeError : PyErr
  | typeError : PyErr

/-- Decimal digits of a natural number. -/
def natChars (n : Nat) : List Char := Nat.toDigits 10 n

/-- Decimal rendering of an integer. -/
def intChars (n : Int) : List Char :=
  if n < 0 then '-' :: natChars n.natAbs else natChars n.natAbs

mutual

/-- Model of Python `str()` on a JSON-decoded value.  Exact for `None`,
booleans, integers and strings; floats and nested containers are rendered
structurally (the repository never depends on their exact text). -/
def pyStr : Json → List Char
  | .null => "None".toList
  | .bool b => if b then "True".toList else "False".toList
  | .num n => intChars n
  | .fnum q => intChars q.num ++ '/' :: natChars q.den
  | .nanc => "nan".toList
  | .infc neg => if neg then "-inf".toList else "inf".toList
  | .str s => s
  | .arr items => '[' :: pyStrList items ++ [']']
  | .obj kvs => '{' :: pyStrFields kvs ++ ['}']

/-- Comma-separated rendering of array items. -/
def pyStrList : List Json → List Char
  | [] => []
  | [x] => pyStr x
  | x :: xs => pyStr x ++ ',' :: ' ' :: pyStrList xs

/-- Comma-separated rendering of object fields. -/
def pyStrFields : List (List Char × Json) → List Char
  | [] => []
  | [(k, v)] => k ++ ':' :: ' ' :: pyStr v
  | (k, v) :: kvs => k ++ ':' :: ' ' :: pyStr v ++ ',' :: ' ' :: pyStrFields kvs

end

/-- Python truthiness of a JSON-decoded value. -/
def pyTruthy : Json → Bool
  | .null => false
  | .bool b => b
  | .num n => !(n == 0)
  | .fnum q => decide (q = 0) == false
  | .nanc => true
  | .infc _ => true
  | .str s => !s.isEmpty
  | .arr items => !items.isEmpty
  | .obj kvs => !kvs.isEmpty

/-- Python `x or y` (returns `x` when truthy, else `y`). -/
def pyOr (x y : Json) : Json := if pyTruthy x then x else y

/-- Python `x.get(k, d)`: only dicts have `.get`; anything else raises
`AttributeError`. -/
def pyGet (q : Json) (k : List Char) (d : Json) : Except PyErr Json :=
  match q with
  | .obj kvs => .ok ((List.lookup k kvs).getD d)
  | _ => .error .attributeError

/-- Python slicing `x[:4]`: lists and strings are sliced, everything else
raises `TypeError`. -/
def pySlice4 : Json → Except PyErr Json
  | .arr l => .ok (.arr (l.take 4))
  | .str s => .ok (.str (s.take 4))
  | _ => .error .typeError

/-- Python iteration over a value: lists yield elements, strings yield
one-character strings, dicts yield keys, everything else raises `TypeError`. -/
def pyIter : Json → Except PyErr (List Json)
  | .arr l => .ok l
  | .str s => .ok (s.map (fun c => Json.str [c]))
  | .obj kvs => .ok (kvs.map (fun kv => Json.str kv.1))
  | _ => .error .typeError

/-- Python `x.strip().upper()`: only strings support it; anything else raises
`AttributeError`. -/
def pyStripUpper : Json → Except PyErr (List Char)
  | .str s => .ok (upperl (pyStrip s))
  | _ => .error .attributeError

/-! ### The normalization loop of `start_quiz` -/

/-- Key string constants. -/
def kOptions : List Char := "options".toList

/-- Key of the correct-answer field. -/
def kCorrect : List Char := "correct".toList

/-- Key of the explanation field. -/
def kExplanation : List Char := "explanation".toList

/-- The four valid answer letters. -/
def lettersL : List (List Char) := [['A'], ['B'], ['C'], ['D']]

/-- The option label expected at position `i` (only positions 0–3 are
reachable: the options list is sliced to `[:4]` first). -/
def labelL (i : Nat) : List Char :=
  match i with
  | 0 => "A)".toList
  | 1 => "B)".toList
  | 2 => "C)".toList
  | _ => "D)".toList

/-- The per-position option fix of the loop: prepend `"{label} "` unless the
trimmed, uppercased option already starts with the expected label. -/
def fixOpt (i : Nat) (o : List Char) : List Char :=
  if (labelL i).isPrefixOf (upperl (pyStrip o)) then o
  else labelL i ++ ' ' :: o

/-- Apply `fixOpt` at successive positions, starting at `i`. -/
def fixAll (i : Nat) : List (List Char) → List (List Char)
  | [] => []
  | o :: rest => fixOpt i o :: fixAll (i + 1) rest

/-- The option entries the loop iterates over:
`opts = q.get("options", []); opts[:4]` then list iteration. -/
def srcOptEntries (q : Json) : Except PyErr (List Json) :=
  match pyGet q kOptions (.arr []) with
  | .error e => .error e
  | .ok opts =>
    match pySlice4 opts with
    | .error e => .error e
    | .ok sliced => pyIter sliced

/-- The value `(q.get("correct") or "").strip().upper()` (shared by the
normalization loop and `submit_answer`). -/
def correctKey (q : Json) : Except PyErr (List Char) :=
  match pyGet q kCorrect .null with
  | .error e => .error e
  | .ok v => pyStripUpper (pyOr v (.str []))

/-- Repair of one parsed item, mirroring the loop body of `start_quiz`:
coerce/trim at most four options, fix their labels, validate the `correct`
letter (defaulting to `"A"`), default a missing/falsy explanation. -/
def repairItem (q : Json) : Except PyErr Json :=
  match srcOptEntries q with
  | .error e => .error e
  | .ok es =>
    let opts := es.map (fun o => pyStrip (pyStr o))
    let opts2 := fixAll 0 opts
    let q1 := jsonSet q kOptions (.arr (opts2.map Json.str))
    match correctKey q1 with
    | .error e => .error e
    | .ok corr =>
      let q2 := if corr ∈ lettersL then q1 else jsonSet q1 kCorrect (.str ['A'])
      let expl := jsonGetD q2 kExplanation .null
      let q3 :=
        if pyTruthy expl then q2
        else jsonSet q2 kExplanation (.str "No explanation provided.".toList)
      .ok q3

/-- The whole normalization loop over the parsed list (a raised error aborts
the request, like an uncaught Python exception). -/
def normalizeItems : List Json → Except PyErr (List Json)
  | [] => .ok []
  | q :: rest =>
    match repairItem q with
    | .error e => .error e
    | .ok r =>
      match normalizeItems rest with
      | .error e => .error e
      | .ok rs => .ok (r :: rs)

/-! ### Quiz session state machine -/

/-- The per-user quiz state held in the server-side session
(`quiz_data`, `quiz_index`, `quiz_score`, `last_explanation`). -/
structure QuizSession where
  data : List Json
  index : Nat
  score : Nat
  lastExplanation : Json

/-- Redirect targets of the quiz blueprint. -/
inductive Route where
  | question : Route
  | result : Route

/-- Session initialization of `start_quiz` on success: `quiz_data = data`,
`quiz_index = 0`, `quiz_score = 0` (`last_explanation` keeps its prior
value, the code does not touch it). -/
def start_session (items : List Json) (prevExpl : Json) : QuizSession :=
  ⟨items, 0, 0, prevExpl⟩

/-- Outcome of the POST branch of `start_quiz` from the Generation Client's
raw text on: a danger flash plus redirect to the start form (session quiz
state untouched), an uncaught exception, or an initialized session. -/
inductive StartOutcome where
  | dangerRedirect (prior : Option QuizSession) : StartOutcome
  | crash (e : PyErr) : StartOutcome
  | started (s : QuizSession) : StartOutcome

/-- Does the parse phase of `start_quiz` reject the raw text?  True exactly
when `json.loads` on the extracted candidate raises, or the parsed value is
not a list, or the list is empty. -/
def parseRejects (raw : List Char) : Bool :=
  match jloads (extract_json_block raw) with
  | some (.arr (_ :: _)) => false
  | _ => true

/-- The POST branch of `start_quiz` after the Generation Client returned
`raw`: extract the candidate JSON block, parse and check it (failure flashes
a danger message and redirects to the start form, leaving the prior session
untouched), then normalize the items and initialize the session. -/
def start_quiz_post (raw : List Char) (prior : Option QuizSession) : StartOutcome :=
  match jloads (extract_json_block raw) with
  | some (.arr items) =>
    if items.isEmpty then .dangerRedirect prior
    else
      match normalizeItems items with
      | .error e => .crash e
      | .ok repaired =>
        .started (start_session repaired ((prior.map (fun s => s.lastExplanation)).getD .null))
  | _ => .dangerRedirect prior

/-- `submit_answer`: no-op redirect to the result view when the quiz is
already exhausted; otherwise grade the submitted letter against the current
question, record the explanation, advance the cursor, and route to the next
question or to the result view. -/
def submit_answer (s : QuizSession) (ans : List Char) : Except PyErr (QuizSession × Route) :=
  if s.data.length ≤ s.index then .ok (s, .result)
  else
    let q := s.data.getD s.index .null
    let selected := upperl (pyStrip ans)
    match correctKey q with
    | .error e => .error e
    | .ok correct =>
      let sc := if selected = correct then s.score + 1 else s.score
      let lx := jsonGetD q kExplanation (.str [])
      let idx2 := s.index + 1
      let s2 : QuizSession := ⟨s.data, idx2, sc, lx⟩
      .ok (s2, if s.data.length ≤ idx2 then .result else .question)

/-- Run a sequence of answer submissions, returning the final session and the
route of the last submission (`none` when no answer was submitted). -/
def runQuiz : QuizSession → List (List Char) → Except PyErr (QuizSession × Option Route)
  | s, [] => .ok (s, none)
  | s, a :: rest =>
    match submit_answer s a with
    | .error e => .error e
    | .ok (s1, r1) =>
      match runQuiz s1 rest with
      | .error e => .error e
      | .ok (s2, r2) => .ok (s2, some (r2.getD r1))

/-- Does grading the question succeed (its `correct` field supports
`(x or "").strip().upper()`)? -/
def gradeable (q : Json) : Bool :=
  match correctKey q with
  | .ok _ => true
  | .error _ => false

/-- Does a submitted answer hit the question's correct letter after both are
trimmed and uppercased? -/
def gradeHit (q : Json) (a : List Char) : Bool :=
  match correctKey q with
  | .ok c => upperl (pyStrip a) == c
  | .error _ => false

/-- The number of submitted answers that match their question. -/
def matchCount (items : List Json) (answers : List (List Char)) : Nat :=
  List.countP (fun p => gradeHit p.1 p.2) (items.zip answers)

/-! ### Result view and persistence -/

/-- A row of the `quiz_result` table (`timestamp` is server-assigned at
insertion by the database and not part of the model). -/
structure QuizResultRow where
  user_id : Nat
  score : Nat
  total : Nat

/-- What the result template receives. -/
structure RenderResult where
  score : Nat
  total : Nat
  feedbackText : String

/-- `percent = (score / total * 100) if total else 0`, in exact arithmetic. -/
def percent (score total : Nat) : ℚ :=
  if total = 0 then 0 else (score : ℚ) / (total : ℚ) * 100

/-- The feedback tiers of `show_result`. -/
def feedback (p : ℚ) : String :=
  if p < 40 then "Needs Practice"
  else if p < 70 then "Good, keep improving"
  else "Excellent!"

/-- `show_result`: unconditionally insert a `QuizResult` row whenever
`total > 0` (no completion or already-recorded check), then render the
percentage and feedback. -/
def show_result (uid : Nat) (s : QuizSession) (dbRows : List QuizResultRow) :
    List QuizResultRow × RenderResult :=
  let total := s.data.length
  let sc := s.score
  let rows := if 0 < total then dbRows ++ [⟨uid, sc, total⟩] else dbRows
  (rows, ⟨sc, total, feedback (percent sc total)⟩)

/-! ### Question count (`num_questions` form field) -/

/-- `clamp` from `src/quiz/routes_quiz.py`. -/
def clamp (n lo hi : Int) : Int := max lo (min n hi)

/-- Digit run with single underscores allowed between digits, as accepted by
Python's `int()` (must consume the whole input). -/
def digitsVal : Nat → List Char → Option Nat
  | acc, [] => some acc
  | acc, '_' :: c :: rest =>
    if c.isDigit then digitsVal (acc * 10 + (c.toNat - 48)) rest else none
  | _, ['_'] => none
  | acc, c :: rest =>
    if c.isDigit then digitsVal (acc * 10 + (c.toNat - 48)) rest else none

/-- Model of Python `int(s)` on ASCII input: optional surrounding whitespace,
optional sign, then digits (with underscores between digits). -/
def pyIntParse (cs : List Char) : Option Int :=
  let s := pyStrip cs
  match s with
  | '+' :: c :: rest =>
    if c.isDigit then (digitsVal (c.toNat - 48) rest).map Int.ofNat else none
  | '-' :: c :: rest =>
    if c.isDigit then (digitsVal (c.toNat - 48) rest).map (fun n => -(Int.ofNat n)) else none
  | c :: rest =>
    if c.isDigit then (digitsVal (c.toNat - 48) rest).map Int.ofNat else none
  | [] => none

/-- The effective question count of `start_quiz`:
`request.form.get("num_questions", "5")`, `int(...)` with fallback 5 on a
parse failure, then `clamp(num, 1, 50)`. -/
def effectiveNum (field : Option (List Char)) : Int :=
  let raw := field.getD ("5".toList)
  let num : Int := (pyIntParse raw).getD 5
  clamp num 1 50

/-! ### Well-formed question objects (for the normalizer round trip) -/

/-- Keys of an association list are pairwise distinct (always true for dicts
produced by the parser). -/
def keysNodup : List (List Char × Json) → Bool
  | [] => true
  | (k, _) :: rest => !(rest.any (fun p => p.1 == k)) && keysNodup rest

/-- Options starting at position `i` are trimmed strings already carrying
their expected labels. -/
def wfOptList : Nat → List Json → Bool
  | _, [] => true
  | i, o :: rest =>
    match o with
    | .str s => (pyStrip s == s) && (labelL i).isPrefixOf (upperl s) && wfOptList (i + 1) rest
    | _ => false

/-- A well-formed question object: a dict with exactly four correctly labeled
trimmed option strings, a bare valid correct letter, and a non-empty
explanation string. -/
def wellFormedItem (q : Json) : Bool :=
  match q with
  | .obj kvs =>
    keysNodup kvs &&
    (match List.lookup kOptions kvs with
     | some (.arr l) => l.length == 4 && wfOptList 0 l
     | _ => false) &&
    (match List.lookup kCorrect kvs with
     | some (.str c) => lettersL.contains c
     | _ => false) &&
    (match List.lookup kExplanation kvs with
     | some (.str e) => !e.isEmpty
     | _ => false)
  | _ => false

/-! ### Projections and concrete inputs used by individual theorems -/

/-- Number of entries in a question's options field. -/
def optsCount (r : Json) : Nat :=
  match jget r kOptions with
  | some (.arr l) => l.length
  | _ => 0

/-- The stored value of a question's correct field (as a string). -/
def storedCorrect (r : Json) : List Char :=
  match jget r kCorrect with
  | some (.str s) => s
  | _ => []

/-- A parsed item with only two options and a `correct` value that is valid
only up to trimming and case. -/
def cexItemC4 : Json :=
  .obj [(kOptions, .arr [.str ("x".toList), .str ("y".toList)]),
        (kCorrect, .str (" b ".toList))]

/-- The text of a valid JSON array holding one well-formed question object. -/
def wfText : List Char :=
  "[\x7b\"question\":\"q\",\"options\":[\"A) a\",\"B) b\",\"C) c\",\"D) d\"],\"correct\":\"B\",\"explanation\":\"e\"\x7d]".toList

/-- The parsed form of `wfText`. -/
def wfItemJ : Json :=
  .obj [("question".toList, .str ("q".toList)),
        (kOptions, .arr [.str ("A) a".toList), .str ("B) b".toList),
                         .str ("C) c".toList), .str ("D) d".toList)]),
        (kCorrect, .str ("B".toList)),
        (kExplanation, .str ("e".toList))]

/-- Raw Generation Client output whose surrounding prose itself contains a
fenced span before the fenced JSON array. -/
def cexRawC3 : List Char :=
  ("see ```x``` ```json\n".toList) ++ wfText ++ ("\n```".toList)

/-- A completed one-question session (score 1 of 1). -/
def sessionC2 : QuizSession := ⟨[Json.null], 1, 1, Json.null⟩

/-- A question graded with correct letter `B`. -/
def wq1 : Json := .obj [(kCorrect, .str ("B".toList)), (kExplanation, .str ("e1".toList))]

/-- A question graded with correct letter `c` (lowercase in the data). -/
def wq2 : Json := .obj [(kCorrect, .str ("c".toList))]

/-! ### Theorems -/

/-- C6: submitting an answer when `index == len(questions)` leaves the whole
session (in particular `score` and `index`) unchanged and only redirects to
the result view. -/
theorem submit_after_completion_noop (s : QuizSession) (a : List Char)
    (h : s.index = s.data.length) :
    submit_answer s a = .ok (s, .result) := by
  unfold submit_answer
  rw [if_pos (le_of_eq h.symm)]

/-- Witness for C6 at a concrete completed session. -/
theorem submit_after_completion_noop_witness :
    (⟨[wq1], 1, 1, Json.null⟩ : QuizSession).index =
      (⟨[wq1], 1, 1, Json.null⟩ : QuizSession).data.length ∧
    submit_answer ⟨[wq1], 1, 1, Json.null⟩ ("B".toList) =
      .ok (⟨[wq1], 1, 1, Json.null⟩, .result) :=
  ⟨rfl, submit_after_completion_noop ⟨[wq1], 1, 1, Json.null⟩ ("B".toList) rfl⟩

/-- C2 counterexample: rendering the result view twice for the same completed
quiz (1 question, total = 1 > 0) inserts two `QuizResult` rows, not the
single row the claim allows. -/
theorem result_persist_duplicate_on_rerender :
    ((show_result 1 sessionC2 ((show_result 1 sessionC2 []).1)).1).length = 2 ∧
    ((show_result 1 sessionC2 ((show_result 1 sessionC2 []).1)).1).length ≠ 1 := by
  constructor <;> decide

/-- C2 (amended): every render of the result view with `total > 0` appends
exactly one `QuizResult` row `(user_id, score, total)` to the store —
repeated renders insert duplicates — and no render updates or deletes
existing rows; with `total = 0` nothing is persisted. -/
theorem result_persist_appends_each_render (uid : Nat) (s : QuizSession)
    (db : List QuizResultRow) :
    (0 < s.data.length →
      (show_result uid s db).1 = db ++ [⟨uid, s.score, s.data.length⟩]) ∧
    (s.data.length = 0 → (show_result uid s db).1 = db) := by
  constructor
  · intro h
    simp only [show_result]
    rw [if_pos h]
  · intro h
    simp only [show_result]
    rw [if_neg (by omega)]

/-- Witness for C2 (amended) at a concrete session and store. -/
theorem result_persist_appends_each_render_witness :
    0 < sessionC2.data.length ∧
    (show_result 1 sessionC2 []).1 = [] ++ [⟨1, 1, 1⟩] :=
  ⟨by decide, (result_persist_appends_each_render 1 sessionC2 []).1 (by decide)⟩

/-- C10: the result view performs no completion check: for any in-progress
session (non-empty questions, `index < len(questions)`), a GET of the result
view inserts a `QuizResult` row with the current partial score over the full
total. -/
theorem show_result_persists_in_progress (uid : Nat) (s : QuizSession)
    (db : List QuizResultRow) (h1 : s.data ≠ []) (h2 : s.index < s.data.length) :
    (show_result uid s db).1 = db ++ [⟨uid, s.score, s.data.length⟩] := by
  simp only [show_result]
  rw [if_pos (List.length_pos.mpr h1)]

/-- Witness for C10: an in-progress two-question session with score 1. -/
theorem show_result_persists_in_progress_witness :
    ((⟨[wq1, wq2], 1, 1, Json.null⟩ : QuizSession).data ≠ [] ∧
      (⟨[wq1, wq2], 1, 1, Json.null⟩ : QuizSession).index <
        (⟨[wq1, wq2], 1, 1, Json.null⟩ : QuizSession).data.length) ∧
    (show_result 9 ⟨[wq1, wq2], 1, 1, Json.null⟩ []).1 = [] ++ [⟨9, 1, 2⟩] :=
  ⟨⟨List.cons_ne_nil _ _, by decide⟩,
    show_result_persists_in_progress 9 ⟨[wq1, wq2], 1, 1, Json.null⟩ []
      (List.cons_ne_nil _ _) (by decide)⟩

/-- C7 counterexample: the form value `"100"` parses to 100, which is outside
[1,50]; the effective count is the clamped bound 50, not the default 5 the
claim states. -/
theorem num_questions_out_of_range_clamps :
    pyIntParse ("100".toList) = some 100 ∧
    effectiveNum (some ("100".toList)) = 50 ∧
    effectiveNum (some ("100".toList)) ≠ 5 := by
  refine ⟨by decide, by decide, by decide⟩

/-- C7 (amended): a `num_questions` value that fails integer parsing gives
exactly 5; a parsed integer is clamped into [1,50] (kept when already in
range, moved to the nearer bound otherwise); a missing field gives 5; the
effective count always lies in [1,50]. -/
theorem effective_count_clamp_spec (s : List Char) :
    (pyIntParse s = none → effectiveNum (some s) = 5) ∧
    (∀ n, pyIntParse s = some n → effectiveNum (some s) = clamp n 1 50) ∧
    (∀ n, pyIntParse s = some n → 1 ≤ n → n ≤ 50 → effectiveNum (some s) = n) ∧
    1 ≤ effectiveNum (some s) ∧ effectiveNum (some s) ≤ 50 ∧
    effectiveNum none = 5 := by
  refine ⟨fun h => ?_, fun n h => ?_, fun n h h1 h50 => ?_, ?_, ?_, by decide⟩
  · simp only [effectiveNum, Option.getD, h, clamp]
    decide
  · simp only [effectiveNum, Option.getD, h]
  · simp only [effectiveNum, Option.getD, h, clamp]
    rw [min_eq_left h50, max_eq_right h1]
  · simp only [effectiveNum, clamp]
    exact le_max_left _ _
  · simp only [effectiveNum, clamp]
    exact max_le (by norm_num) (min_le_right _ _)

/-- Witness for C7 (amended): the unparsable string `"abc"` yields 5, and an
in-range value is kept. -/
theorem effective_count_clamp_spec_witness :
    (pyIntParse ("abc".toList) = none ∧ effectiveNum (some ("abc".toList)) = 5) ∧
    (pyIntParse ("7".toList) = some 7 ∧ effectiveNum (some ("7".toList)) = 7) :=
  ⟨⟨by decide, (effective_count_clamp_spec ("abc".toList)).1 (by decide)⟩,
    ⟨by decide, (effective_count_clamp_spec ("7".toList)).2.2.1 7 (by decide)
      (by decide) (by decide)⟩⟩

/-- C8: the result view's percentage is `score/total*100` (0 when
`total = 0`) and the feedback tiers are `< 40` → Needs Practice,
`[40, 70)` → Good, keep improving, `≥ 70` → Excellent!, with the three
concrete cases of the claim. -/
theorem result_percent_feedback_spec (sc t : Nat) :
    percent sc 0 = 0 ∧
    (t ≠ 0 → percent sc t = (sc : ℚ) / (t : ℚ) * 100) ∧
    (percent sc t < 40 → feedback (percent sc t) = "Needs Practice") ∧
    (40 ≤ percent sc t → percent sc t < 70 →
      feedback (percent sc t) = "Good, keep improving") ∧
    (70 ≤ percent sc t → feedback (percent sc t) = "Excellent!") ∧
    feedback (percent sc 0) = "Needs Practice" ∧
    percent 8 10 = 80 ∧ feedback (percent 8 10) = "Excellent!" ∧
    feedback (percent 5 10) = "Good, keep improving" := by
  have h810 : percent 8 10 = 80 := by
    simp only [percent]
    norm_num
  have h510 : percent 5 10 = 50 := by
    simp only [percent]
    norm_num
  refine ⟨by simp [percent], fun h => by simp [percent, h], fun h => ?_,
    fun h1 h2 => ?_, fun h => ?_, ?_, h810, ?_, ?_⟩
  · rw [feedback, if_pos h]
  · rw [feedback, if_neg (by linarith), if_pos h2]
  · rw [feedback, if_neg (by linarith), if_neg (by linarith)]
  · have h0 : percent sc 0 = 0 := by simp [percent]
    rw [h0, feedback, if_pos (by norm_num)]
  · rw [h810, feedback, if_neg (by norm_num), if_neg (by norm_num)]
  · rw [h510, feedback, if_neg (by norm_num), if_pos (by norm_num)]

/-- Witness for C8 applying the tier implications at concrete scores. -/
theorem result_percent_feedback_spec_witness :
    (40 ≤ percent 5 10 ∧ percent 5 10 < 70) ∧
    feedback (percent 5 10) = "Good, keep improving" :=
  ⟨⟨by simp [percent]; norm_num, by simp [percent]; norm_num⟩,
    (result_percent_feedback_spec 5 10).2.2.2.1
      (by simp [percent]; norm_num) (by simp [percent]; norm_num)⟩

/-- C9: the POST branch of `start_quiz` surfaces the danger flash and
redirects back to the start form — leaving the prior session quiz state
untouched and performing no retry — exactly when `json.loads` on the
extracted candidate raises, or the parsed value is not a list, or the list
is empty. -/
theorem start_quiz_parse_failure_iff (raw : List Char) (prior : Option QuizSession) :
    start_quiz_post raw prior = .dangerRedirect prior ↔ parseRejects raw = true := by
  unfold start_quiz_post parseRejects
  cases hj : jloads (extract_json_block raw) with
  | none => simp
  | some v =>
    cases v with
    | arr items =>
      cases items with
      | nil => simp
      | cons q rest =>
        simp only [List.isEmpty_cons, if_neg Bool.false_ne_true]
        cases hn : normalizeItems (q :: rest) with
        | error e => simp
        | ok rs => simp
    | null => simp
    | bool b => simp
    | num n => simp
    | fnum q => simp
    | nanc => simp
    | infc neg => simp
    | str s => simp
    | obj kvs => simp

/-- Running the remaining answers from any reachable in-progress state grades
each position independently, ends with the cursor at the end of the quiz,
and routes the final submission to the result view. -/
theorem runQuiz_general (answers : List (List Char)) :
    ∀ (s : QuizSession),
      (∀ q ∈ s.data, gradeable q = true) →
      s.index + answers.length = s.data.length →
      ∃ lx, runQuiz s answers =
        .ok (⟨s.data, s.data.length,
               s.score + List.countP (fun p => gradeHit p.1 p.2)
                 ((s.data.drop s.index).zip answers), lx⟩,
             if answers.isEmpty then none else some Route.result) := by
  induction answers with
  | nil =>
    rintro ⟨data, idx, sc, lx0⟩ hg hlen
    simp only [List.length_nil, Nat.add_zero] at hlen
    refine ⟨lx0, ?_⟩
    simp [runQuiz, hlen]
  | cons a rest ih =>
    rintro ⟨data, idx, sc, lx0⟩ hg hlen
    simp only [List.length_cons] at hlen
    have hidx : idx < data.length := by omega
    have hq : data.getD idx Json.null = data[idx] := by
      simp [List.getD_eq_getElem?_getD, List.getElem?_eq_getElem hidx]
    have hgr : gradeable data[idx] = true := hg _ (List.getElem_mem hidx)
    obtain ⟨c, hc⟩ : ∃ c, correctKey data[idx] = .ok c := by
      unfold gradeable at hgr
      cases hck : correctKey data[idx] with
      | ok c => exact ⟨c, rfl⟩
      | error e => rw [hck] at hgr; exact absurd hgr (by simp)
    have hsub : submit_answer ⟨data, idx, sc, lx0⟩ a =
        .ok (⟨data, idx + 1, if upperl (pyStrip a) = c then sc + 1 else sc,
              jsonGetD data[idx] kExplanation (.str [])⟩,
             if data.length ≤ idx + 1 then Route.result else Route.question) := by
      unfold submit_answer
      rw [if_neg (by simp only; omega)]
      simp only [hq, hc]
    obtain ⟨lx, hrun⟩ :=
      ih ⟨data, idx + 1, if upperl (pyStrip a) = c then sc + 1 else sc,
          jsonGetD data[idx] kExplanation (.str [])⟩ hg (by simp only; omega)
    refine ⟨lx, ?_⟩
    simp only [runQuiz, hsub, hrun]
    have hdrop : data.drop idx = data[idx] :: data.drop (idx + 1) :=
      List.drop_eq_getElem_cons hidx
    have hhit : gradeHit data[idx] a = (upperl (pyStrip a) == c) := by
      unfold gradeHit
      rw [hc]
    have hscore :
        (if upperl (pyStrip a) = c then sc + 1 else sc) +
            List.countP (fun p => gradeHit p.1 p.2) ((data.drop (idx + 1)).zip rest) =
          sc + List.countP (fun p => gradeHit p.1 p.2) ((data.drop idx).zip (a :: rest)) := by
      rw [hdrop]
      show _ = sc + List.countP (fun p => gradeHit p.1 p.2)
        ((data[idx], a) :: (data.drop (idx + 1)).zip rest)
      rw [List.countP_cons]
      simp only [hhit]
      by_cases h : upperl (pyStrip a) = c
      · simp [h]
        omega
      · simp [h]
    cases rest with
    | nil =>
      have hend : data.length ≤ idx + 1 := by
        simp only [List.length_nil] at hlen
        omega
      simp [hend]
      simpa using hscore
    | cons b rest' =>
      simp [hscore]

/-- C1: starting a quiz with the normalized questions (`index = 0`,
`score = 0`) and submitting one answer per question yields a final score
equal to the number of answers that, trimmed and uppercased, equal the
corresponding question's trimmed and uppercased correct letter, and the last
submission routes to the result view. -/
theorem quiz_state_machine_score_and_route (items : List Json)
    (answers : List (List Char)) (e0 : Json)
    (hg : ∀ q ∈ items, gradeable q = true)
    (hlen : answers.length = items.length)
    (hne : items ≠ []) :
    ∃ lx, runQuiz (start_session items e0) answers =
      .ok (⟨items, items.length, matchCount items answers, lx⟩, some Route.result) := by
  obtain ⟨lx, hrun⟩ := runQuiz_general answers (start_session items e0) hg
    (by simp [start_session, hlen])
  refine ⟨lx, ?_⟩
  rw [hrun]
  have hne' : answers.isEmpty = false := by
    cases answers with
    | nil =>
      cases items with
      | nil => exact absurd rfl hne
      | cons x xs => simp at hlen
    | cons x xs => rfl
  simp [start_session, matchCount, hne']

/-- Witness for C1: a two-question quiz with one matching answer. -/
theorem quiz_state_machine_score_and_route_witness :
    (∀ q ∈ [wq1, wq2], gradeable q = true) ∧
    ∃ lx, runQuiz (start_session [wq1, wq2] Json.null) [" b ".toList, "X".toList] =
      .ok (⟨[wq1, wq2], 2, matchCount [wq1, wq2] [" b ".toList, "X".toList], lx⟩,
           some Route.result) :=
  ⟨by decide, quiz_state_machine_score_and_route [wq1, wq2]
    [" b ".toList, "X".toList] Json.null (by decide) rfl (List.cons_ne_nil _ _)⟩

/-- Leading non-whitespace characters survive `pyStrip`. -/
theorem pyStrip_keeps_two (c1 c2 : Char) (x : List Char)
    (h1 : pyWs c1 = false) (h2 : pyWs c2 = false) :
    ∃ y, pyStrip (c1 :: c2 :: x) = c1 :: c2 :: y := by
  unfold pyStrip
  have hd : List.dropWhile pyWs (c1 :: c2 :: x) = c1 :: c2 :: x := by
    rw [List.dropWhile_cons, if_neg (by simp [h1])]
  rw [hd]
  have hrev : (c1 :: c2 :: x).reverse = x.reverse ++ [c2, c1] := by simp
  rw [hrev, List.dropWhile_append]
  cases h : (List.dropWhile pyWs x.reverse).isEmpty with
  | true => exact ⟨[], by simp [h, List.dropWhile_cons, h2]⟩
  | false => exact ⟨(List.dropWhile pyWs x.reverse).reverse, by simp [h]⟩

/-- A prepended two-character label survives trimming and uppercasing. -/
theorem label_two_chars (L : Char) (o : List Char) (hL : pyWs L = false)
    (hU : L.toUpper = L) :
    [L, ')'].isPrefixOf (upperl (pyStrip (L :: ')' :: ' ' :: o))) = true := by
  obtain ⟨y, hy⟩ := pyStrip_keeps_two L ')' (' ' :: o) hL (by decide)
  rw [hy]
  have hpar : Char.toUpper ')' = ')' := by decide
  simp [upperl, List.isPrefixOf, hU, hpar]

/-- Each fixed option carries its expected label (up to case) after trimming. -/
theorem label_fixOpt (i : Nat) (o : List Char) :
    (labelL i).isPrefixOf (upperl (pyStrip (fixOpt i o))) = true := by
  unfold fixOpt
  cases h : (labelL i).isPrefixOf (upperl (pyStrip o)) with
  | true => simpa [h] using h
  | false =>
    simp only [h, Bool.false_eq_true, if_false]
    rcases i with _ | _ | _ | j
    · exact label_two_chars 'A' o (by decide) (by decide)
    · exact label_two_chars 'B' o (by decide) (by decide)
    · exact label_two_chars 'C' o (by decide) (by decide)
    · exact label_two_chars 'D' o (by decide) (by decide)

/-- `fixAll` preserves the number of options. -/
theorem fixAll_length (i : Nat) (os : List (List Char)) :
    (fixAll i os).length = os.length := by
  induction os generalizing i with
  | nil => rfl
  | cons o rest ih => simp [fixAll, ih]

/-- Every position of `fixAll i os` carries its expected label. -/
theorem fixAll_labels (os : List (List Char)) :
    ∀ (i j : Nat) (hj : j < (fixAll i os).length),
      (labelL (i + j)).isPrefixOf
        (upperl (pyStrip ((fixAll i os).get ⟨j, hj⟩))) = true := by
  induction os with
  | nil => intro i j hj; simp [fixAll] at hj
  | cons o rest ih =>
    intro i j hj
    cases j with
    | zero => simpa using label_fixOpt i o
    | succ j' =>
      have hj' : j' < (fixAll (i + 1) rest).length := by
        simpa [fixAll] using hj
      have := ih (i + 1) j' hj'
      simpa [fixAll, Nat.add_assoc, Nat.add_comm 1 j'] using this

/-- A successful lookup means the key is present. -/
theorem lookup_some_any (k : List Char) (v : Json) (kvs : List (List Char × Json))
    (h : List.lookup k kvs = some v) : kvs.any (fun p => p.1 == k) = true := by
  induction kvs with
  | nil => simp [List.lookup] at h
  | cons kv rest ih =>
    obtain ⟨k1, v1⟩ := kv
    cases hbe : (k == k1) with
    | true =>
      have hk : k = k1 := beq_iff_eq.mp hbe
      subst hk
      simp
    | false =>
      simp only [List.lookup, hbe] at h
      simp [List.any_cons, ih h]

/-- An absent key makes the positional replacement a no-op. -/
theorem map_keep_of_no_key (k : List Char) (v : Json) (kvs : List (List Char × Json))
    (h : kvs.any (fun p => p.1 == k) = false) :
    kvs.map (fun p => if p.1 == k then (k, v) else p) = kvs := by
  induction kvs with
  | nil => rfl
  | cons kv rest ih =>
    simp only [List.any_cons, Bool.or_eq_false_iff] at h
    simp only [List.map_cons]
    rw [if_neg (by rw [h.1]; exact Bool.false_ne_true), ih h.2]

/-- Replacing the unique binding of `k` by its own value is the identity. -/
theorem map_replace_id (k : List Char) (v : Json) (kvs : List (List Char × Json))
    (hnd : keysNodup kvs = true) (h : List.lookup k kvs = some v) :
    kvs.map (fun p => if p.1 == k then (k, v) else p) = kvs := by
  induction kvs with
  | nil => rfl
  | cons kv rest ih =>
    obtain ⟨k1, v1⟩ := kv
    simp only [keysNodup, Bool.and_eq_true, Bool.not_eq_true'] at hnd
    obtain ⟨hnd1, hnd2⟩ := hnd
    cases hbe : (k == k1) with
    | true =>
      have hk : k = k1 := beq_iff_eq.mp hbe
      subst hk
      simp only [List.lookup, beq_self_eq_true] at h
      injection h with hh
      subst hh
      simp only [List.map_cons]
      rw [if_pos (by simp), map_keep_of_no_key k v1 rest hnd1]
    | false =>
      have hkne : ¬ k = k1 := fun hh => by
        subst hh
        simp [beq_self_eq_true] at hbe
      have hne : (k1 == k) = false :=
        beq_eq_false_iff_ne.mpr (fun hh => hkne hh.symm)
      simp only [List.lookup, hbe] at h
      simp only [List.map_cons]
      rw [if_neg (by rw [hne]; exact Bool.false_ne_true), ih hnd2 h]

/-- Inserting the value a key already holds is the identity on a dict. -/
theorem dictInsert_self_id (k : List Char) (v : Json) (kvs : List (List Char × Json))
    (hnd : keysNodup kvs = true) (h : List.lookup k kvs = some v) :
    dictInsert kvs k v = kvs := by
  unfold dictInsert
  rw [if_pos (lookup_some_any k v kvs h)]
  exact map_replace_id k v kvs hnd h

/-- An absent key looks up to `none`. -/
theorem any_false_lookup_none (k : List Char) (kvs : List (List Char × Json))
    (h : kvs.any (fun p => p.1 == k) = false) : List.lookup k kvs = none := by
  induction kvs with
  | nil => rfl
  | cons kv rest ih =>
    obtain ⟨k1, v1⟩ := kv
    simp only [List.any_cons, Bool.or_eq_false_iff] at h
    have hke : (k == k1) = false := by
      cases hbe : (k == k1) with
      | false => rfl
      | true =>
        have hk : k = k1 := beq_iff_eq.mp hbe
        subst hk
        rw [beq_self_eq_true] at h
        exact absurd h.1 (by decide)
    simp only [List.lookup, hke]
    exact ih h.2

/-- Lookup of a different key skips an appended binding. -/
theorem lookup_append_single_other (q k : List Char) (v : Json)
    (kvs : List (List Char × Json)) (hqk : q ≠ k) :
    List.lookup q (kvs ++ [(k, v)]) = List.lookup q kvs := by
  induction kvs with
  | nil => simp [List.lookup, beq_eq_false_iff_ne.mpr hqk]
  | cons kv rest ih =>
    obtain ⟨k1, v1⟩ := kv
    simp only [List.cons_append, List.lookup]
    cases hq1 : (q == k1) with
    | true => rfl
    | false => exact ih

/-- Lookup of a key newly appended to a dict it was absent from. -/
theorem lookup_append_single_self (k : List Char) (v : Json)
    (kvs : List (List Char × Json)) (h : List.lookup k kvs = none) :
    List.lookup k (kvs ++ [(k, v)]) = some v := by
  induction kvs with
  | nil => simp [List.lookup, beq_self_eq_true]
  | cons kv rest ih =>
    obtain ⟨k1, v1⟩ := kv
    simp only [List.cons_append, List.lookup]
    cases hq1 : (k == k1) with
    | true =>
      simp only [List.lookup, hq1] at h
      exact Option.noConfusion h
    | false =>
      simp only [List.lookup, hq1] at h
      simp only [hq1]
      exact ih h

/-- Lookup of the replaced key after a positional replacement. -/
theorem lookup_map_replace_self (k : List Char) (v : Json)
    (kvs : List (List Char × Json)) (ha : kvs.any (fun p => p.1 == k) = true) :
    List.lookup k (kvs.map (fun p => if p.1 == k then (k, v) else p)) = some v := by
  induction kvs with
  | nil => simp at ha
  | cons kv rest ih =>
    obtain ⟨k1, v1⟩ := kv
    simp only [List.any_cons] at ha
    cases hbe : (k1 == k) with
    | true =>
      simp only [List.map_cons]
      dsimp only
      rw [hbe]
      simp only [eq_self_iff_true, if_true, List.lookup, beq_self_eq_true]
    | false =>
      rw [hbe] at ha
      simp only [Bool.false_or] at ha
      have hke : (k == k1) = false := by
        cases hbe2 : (k == k1) with
        | false => rfl
        | true =>
          have hk : k = k1 := beq_iff_eq.mp hbe2
          subst hk
          rw [beq_self_eq_true] at hbe
          exact absurd hbe (by decide)
      simp only [List.map_cons]
      dsimp only
      rw [hbe]
      simp only [Bool.false_eq_true, if_false, List.lookup, hke]
      exact ih ha

/-- Lookup of an untouched key after a positional replacement. -/
theorem lookup_map_replace_other (k q : List Char) (v : Json)
    (kvs : List (List Char × Json)) (hqk : q ≠ k) :
    List.lookup q (kvs.map (fun p => if p.1 == k then (k, v) else p)) =
      List.lookup q kvs := by
  induction kvs with
  | nil => rfl
  | cons kv rest ih =>
    obtain ⟨k1, v1⟩ := kv
    cases hbe : (k1 == k) with
    | true =>
      have hq2 : (q == k) = false := beq_eq_false_iff_ne.mpr hqk
      have hk1 : k1 = k := beq_iff_eq.mp hbe
      have hq1 : (q == k1) = false := by rw [hk1]; exact hq2
      simp only [List.map_cons]
      dsimp only
      rw [hbe]
      simp only [eq_self_iff_true, if_true, List.lookup, hq1, hq2]
      exact ih
    | false =>
      simp only [List.map_cons]
      dsimp only
      rw [hbe]
      simp only [Bool.false_eq_true, if_false, List.lookup]
      cases hq1 : (q == k1) with
      | true => rfl
      | false => exact ih

/-- `d[k] = v` makes `k` look up to `v`. -/
theorem lookup_dictInsert_self (k : List Char) (v : Json)
    (kvs : List (List Char × Json)) :
    List.lookup k (dictInsert kvs k v) = some v := by
  unfold dictInsert
  cases ha : kvs.any (fun p => p.1 == k) with
  | true =>
    simp only [if_true]
    exact lookup_map_replace_self k v kvs ha
  | false =>
    simp only [Bool.false_eq_true, if_false]
    exact lookup_append_single_self k v kvs (any_false_lookup_none k kvs ha)

/-- `d[k] = v` leaves other keys unchanged. -/
theorem lookup_dictInsert_other (k q : List Char) (v : Json)
    (kvs : List (List Char × Json)) (hqk : q ≠ k) :
    List.lookup q (dictInsert kvs k v) = List.lookup q kvs := by
  unfold dictInsert
  cases ha : kvs.any (fun p => p.1 == k) with
  | true =>
    simp only [if_true]
    exact lookup_map_replace_other k q v kvs hqk
  | false =>
    simp only [Bool.false_eq_true, if_false]
    exact lookup_append_single_other q k v kvs hqk

/-- Setting one key does not affect another key's lookup. -/
theorem jget_jsonSet_other (kvs : List (List Char × Json)) (k q : List Char)
    (v : Json) (hqk : q ≠ k) :
    jget (jsonSet (.obj kvs) k v) q = jget (.obj kvs) q := by
  unfold jsonSet jget
  exact lookup_dictInsert_other k q v kvs hqk

/-- Setting a key makes it look up to the new value. -/
theorem jget_jsonSet_self (kvs : List (List Char × Json)) (k : List Char) (v : Json) :
    jget (jsonSet (.obj kvs) k v) k = some v := by
  unfold jsonSet jget
  exact lookup_dictInsert_self k v kvs

/-- A successful options pipeline forces the item to be a dict. -/
theorem srcOptEntries_obj (q : Json) (es : List Json) (h : srcOptEntries q = .ok es) :
    ∃ kvs, q = .obj kvs := by
  cases q with
  | obj kvs => exact ⟨kvs, rfl⟩
  | null => simp [srcOptEntries, pyGet] at h
  | bool b => simp [srcOptEntries, pyGet] at h
  | num n => simp [srcOptEntries, pyGet] at h
  | fnum x => simp [srcOptEntries, pyGet] at h
  | nanc => simp [srcOptEntries, pyGet] at h
  | infc neg => simp [srcOptEntries, pyGet] at h
  | str s => simp [srcOptEntries, pyGet] at h
  | arr l => simp [srcOptEntries, pyGet] at h

/-- The options pipeline yields at most the first four entries. -/
theorem srcOptEntries_le_four (q : Json) (es : List Json)
    (h : srcOptEntries q = .ok es) : es.length ≤ 4 := by
  unfold srcOptEntries at h
  cases hg : pyGet q kOptions (.arr []) with
  | error e => rw [hg] at h; exact Except.noConfusion h
  | ok opts =>
    rw [hg] at h
    cases opts with
    | arr l =>
      simp only [pySlice4, pyIter] at h
      injection h with h
      subst h
      simpa using List.length_take_le 4 l
    | str s =>
      simp only [pySlice4, pyIter] at h
      injection h with h
      subst h
      simpa using List.length_take_le 4 s
    | null => simp [pySlice4] at h
    | bool b => simp [pySlice4] at h
    | num n => simp [pySlice4] at h
    | fnum x => simp [pySlice4] at h
    | nanc => simp [pySlice4] at h
    | infc neg => simp [pySlice4] at h
    | obj kvs => simp [pySlice4] at h

/-- The options pipeline on a dict whose options field is a JSON list. -/
theorem srcOptEntries_of_jget_arr (l : List Json) (kvs : List (List Char × Json))
    (hj : List.lookup kOptions kvs = some (.arr l)) :
    srcOptEntries (.obj kvs) = .ok (l.take 4) := by
  unfold srcOptEntries
  rw [show pyGet (.obj kvs) kOptions (.arr []) =
      .ok ((List.lookup kOptions kvs).getD (.arr [])) from rfl]
  rw [hj]
  simp [pySlice4, pyIter]

/-- Core inversion of a successful `repairItem`: the output's options are the
label-fixed trimmed coercions of at most the first four source entries, and
the output's correct field is the literal `"A"` when the source value is
invalid, and otherwise the source string itself, unchanged (the source field
still looks up to the stored string). -/
theorem repairItem_ok_core (q r : Json) (h : repairItem q = .ok r) :
    ∃ kvs es c,
      q = .obj kvs ∧
      srcOptEntries q = .ok es ∧
      jget r kOptions =
        some (.arr ((fixAll 0 (es.map (fun o => pyStrip (pyStr o)))).map Json.str)) ∧
      jget r kCorrect = some (.str c) ∧
      upperl (pyStrip c) ∈ lettersL ∧
      (∀ c0, correctKey q = .ok c0 → c0 ∉ lettersL → c = ['A']) ∧
      (∀ c0, correctKey q = .ok c0 → c0 ∈ lettersL →
        jget q kCorrect = some (.str c)) := by
  unfold repairItem at h
  cases hs : srcOptEntries q with
  | error e => rw [hs] at h; exact Except.noConfusion h
  | ok es =>
    rw [hs] at h
    obtain ⟨kvs, hq⟩ := srcOptEntries_obj q es hs
    subst hq
    refine ⟨kvs, es, ?_⟩
    dsimp only at h
    set optv : Json :=
      .arr ((fixAll 0 (es.map (fun o => pyStrip (pyStr o)))).map Json.str) with hoptv
    cases hck : correctKey (jsonSet (.obj kvs) kOptions optv) with
    | error e => rw [hck] at h; exact Except.noConfusion h
    | ok corr =>
      rw [hck] at h
      dsimp only at h
      have hkey : correctKey (jsonSet (.obj kvs) kOptions optv) =
          correctKey (.obj kvs) := by
        unfold correctKey
        rw [show pyGet (jsonSet (.obj kvs) kOptions optv) kCorrect Json.null =
            .ok ((List.lookup kCorrect (dictInsert kvs kOptions optv)).getD Json.null)
            from rfl]
        rw [show pyGet (.obj kvs) kCorrect Json.null =
            .ok ((List.lookup kCorrect kvs).getD Json.null) from rfl]
        rw [lookup_dictInsert_other kOptions kCorrect optv kvs (by decide)]
      have hckq : correctKey (.obj kvs) = .ok corr := hkey ▸ hck
      by_cases hin : corr ∈ lettersL
      · rw [if_pos hin] at h
        -- the correct field is an untouched truthy string
        have hv : ∃ s, List.lookup kCorrect kvs = some (.str s) ∧
            corr = upperl (pyStrip s) := by
          rw [show correctKey (.obj kvs) =
              pyStripUpper (pyOr ((List.lookup kCorrect kvs).getD Json.null)
                (.str [])) from rfl] at hckq
          cases hl : List.lookup kCorrect kvs with
          | none =>
            rw [hl] at hckq
            simp only [Option.getD_none] at hckq
            simp [pyOr, pyTruthy, pyStripUpper] at hckq
            rw [← hckq] at hin
            exact absurd hin (by decide)
          | some v0 =>
            rw [hl] at hckq
            simp only [Option.getD_some] at hckq
            by_cases ht : pyTruthy v0 = true
            · cases v0 with
              | str s =>
                refine ⟨s, rfl, ?_⟩
                simp only [pyOr, ht, if_true, pyStripUpper] at hckq
                injection hckq with hck2
                exact hck2.symm
              | null => simp [pyTruthy] at ht
              | bool b =>
                simp only [pyOr, ht, if_true, pyStripUpper] at hckq
                exact Except.noConfusion hckq
              | num n =>
                simp only [pyOr, ht, if_true, pyStripUpper] at hckq
                exact Except.noConfusion hckq
              | fnum x =>
                simp only [pyOr, ht, if_true, pyStripUpper] at hckq
                exact Except.noConfusion hckq
              | nanc =>
                simp only [pyOr, ht, if_true, pyStripUpper] at hckq
                exact Except.noConfusion hckq
              | infc neg =>
                simp only [pyOr, ht, if_true, pyStripUpper] at hckq
                exact Except.noConfusion hckq
              | arr l =>
                simp only [pyOr, ht, if_true, pyStripUpper] at hckq
                exact Except.noConfusion hckq
              | obj kvs2 =>
                simp only [pyOr, ht, if_true, pyStripUpper] at hckq
                exact Except.noConfusion hckq
            · have ht' : pyTruthy v0 = false := by
                cases hb : pyTruthy v0 with
                | true => exact absurd hb ht
                | false => rfl
              simp only [pyOr, ht', Bool.false_eq_true, if_false, pyStripUpper] at hckq
              injection hckq with hck2
              rw [← hck2] at hin
              exact absurd hin (by decide)
        obtain ⟨s, hls, hcorr⟩ := hv
        -- r is the options-set dict, possibly with a default explanation
        refine ⟨s, rfl, rfl, ?_, ?_, ?_, ?_, ?_⟩
        · -- options lookup survives the optional explanation default
          cases hexp : pyTruthy (jsonGetD (jsonSet (.obj kvs) kOptions optv)
              kExplanation .null) with
          | true =>
            rw [hexp] at h
            simp only [eq_self_iff_true, if_true] at h
            injection h with h
            subst h
            exact jget_jsonSet_self kvs kOptions optv
          | false =>
            rw [hexp] at h
            simp only [Bool.false_eq_true, if_false] at h
            injection h with h
            subst h
            rw [show jsonSet (jsonSet (.obj kvs) kOptions optv) kExplanation
                  (.str ("No explanation provided.".toList)) =
                jsonSet (.obj (dictInsert kvs kOptions optv)) kExplanation
                  (.str ("No explanation provided.".toList)) from rfl]
            rw [jget_jsonSet_other _ kExplanation kOptions _ (by decide)]
            exact jget_jsonSet_self kvs kOptions optv
        · -- correct lookup: untouched original string
          cases hexp : pyTruthy (jsonGetD (jsonSet (.obj kvs) kOptions optv)
              kExplanation .null) with
          | true =>
            rw [hexp] at h
            simp only [eq_self_iff_true, if_true] at h
            injection h with h
            subst h
            rw [jget_jsonSet_other kvs kOptions kCorrect optv (by decide)]
            exact hls
          | false =>
            rw [hexp] at h
            simp only [Bool.false_eq_true, if_false] at h
            injection h with h
            subst h
            rw [show jsonSet (jsonSet (.obj kvs) kOptions optv) kExplanation
                  (.str ("No explanation provided.".toList)) =
                jsonSet (.obj (dictInsert kvs kOptions optv)) kExplanation
                  (.str ("No explanation provided.".toList)) from rfl]
            rw [jget_jsonSet_other _ kExplanation kCorrect _ (by decide)]
            show List.lookup kCorrect (dictInsert kvs kOptions optv) =
              some (Json.str s)
            rw [lookup_dictInsert_other kOptions kCorrect optv kvs (by decide)]
            exact hls
        · rw [← hcorr]
          exact hin
        · intro c0 hc0 hc0n
          rw [hckq] at hc0
          injection hc0 with hc0
          subst hc0
          exact absurd hin hc0n
        · intro c0 hc0 hc0in
          exact hls
      · rw [if_neg hin] at h
        -- the correct field was overwritten with "A"
        refine ⟨['A'], rfl, rfl, ?_, ?_, by decide, fun c0 hc0 hc0n => rfl, ?_⟩
        · cases hexp : pyTruthy (jsonGetD (jsonSet (jsonSet (.obj kvs) kOptions optv)
              kCorrect (.str ['A'])) kExplanation .null) with
          | true =>
            rw [hexp] at h
            simp only [eq_self_iff_true, if_true] at h
            injection h with h
            subst h
            rw [show jsonSet (jsonSet (.obj kvs) kOptions optv) kCorrect (.str ['A']) =
                jsonSet (.obj (dictInsert kvs kOptions optv)) kCorrect (.str ['A'])
                from rfl]
            rw [jget_jsonSet_other _ kCorrect kOptions _ (by decide)]
            exact jget_jsonSet_self kvs kOptions optv
          | false =>
            rw [hexp] at h
            simp only [Bool.false_eq_true, if_false] at h
            injection h with h
            subst h
            rw [show jsonSet (jsonSet (jsonSet (.obj kvs) kOptions optv) kCorrect
                  (.str ['A'])) kExplanation (.str ("No explanation provided.".toList)) =
                jsonSet (.obj (dictInsert (dictInsert kvs kOptions optv) kCorrect
                  (.str ['A']))) kExplanation (.str ("No explanation provided.".toList))
                from rfl]
            rw [jget_jsonSet_other _ kExplanation kOptions _ (by decide)]
            rw [show Json.obj (dictInsert (dictInsert kvs kOptions optv) kCorrect
                  (.str ['A'])) =
                jsonSet (.obj (dictInsert kvs kOptions optv)) kCorrect (.str ['A'])
                from rfl]
            rw [jget_jsonSet_other _ kCorrect kOptions _ (by decide)]
            exact jget_jsonSet_self kvs kOptions optv
        · cases hexp : pyTruthy (jsonGetD (jsonSet (jsonSet (.obj kvs) kOptions optv)
              kCorrect (.str ['A'])) kExplanation .null) with
          | true =>
            rw [hexp] at h
            simp only [eq_self_iff_true, if_true] at h
            injection h with h
            subst h
            rw [show jsonSet (jsonSet (.obj kvs) kOptions optv) kCorrect (.str ['A']) =
                jsonSet (.obj (dictInsert kvs kOptions optv)) kCorrect (.str ['A'])
                from rfl]
            exact jget_jsonSet_self _ kCorrect (.str ['A'])
          | false =>
            rw [hexp] at h
            simp only [Bool.false_eq_true, if_false] at h
            injection h with h
            subst h
            rw [show jsonSet (jsonSet (jsonSet (.obj kvs) kOptions optv) kCorrect
                  (.str ['A'])) kExplanation (.str ("No explanation provided.".toList)) =
                jsonSet (.obj (dictInsert (dictInsert kvs kOptions optv) kCorrect
                  (.str ['A']))) kExplanation (.str ("No explanation provided.".toList))
                from rfl]
            rw [jget_jsonSet_other _ kExplanation kCorrect _ (by decide)]
            rw [show Json.obj (dictInsert (dictInsert kvs kOptions optv) kCorrect
                  (.str ['A'])) =
                jsonSet (.obj (dictInsert kvs kOptions optv)) kCorrect (.str ['A'])
                from rfl]
            exact jget_jsonSet_self _ kCorrect (.str ['A'])
        · intro c0 hc0 hc0in
          rw [hckq] at hc0
          injection hc0 with hh
          rw [← hh] at hc0in
          exact absurd hc0in hin

/-- C4 counterexample: the parsed item `{"options": ["x","y"],
"correct": " b "}` is repaired successfully, yet the result has only two
options (not four) and its stored correct field is the untouched string
`" b "`, which is not one of the four letters. -/
theorem repair_item_short_options_and_raw_correct :
    (repairItem cexItemC4).toOption.isSome = true ∧
    optsCount ((repairItem cexItemC4).toOption.getD .null) = 2 ∧
    optsCount ((repairItem cexItemC4).toOption.getD .null) ≠ 4 ∧
    storedCorrect ((repairItem cexItemC4).toOption.getD .null) = (" b ".toList) ∧
    storedCorrect ((repairItem cexItemC4).toOption.getD .null) ∉ lettersL := by
  refine ⟨rfl, rfl, by decide, rfl, by decide⟩

/-- C4 (amended): every repaired item keeps exactly the provided option
entries capped at four (so fewer than four when the source provides fewer);
each kept option starts with its expected positional label up to trimming
and case; and the stored correct field trims-and-uppercases to one of
A/B/C/D, being set to the literal `"A"` when the source value is invalid,
and left as the unmodified source string when the source value is valid (so
the overwrite with `"A"` happens exactly on invalid source values). -/
theorem repair_item_invariants (q r : Json) (h : repairItem q = .ok r) :
    ∃ es opts c,
      srcOptEntries q = .ok es ∧
      opts = fixAll 0 (es.map (fun o => pyStrip (pyStr o))) ∧
      jget r kOptions = some (.arr (opts.map Json.str)) ∧
      opts.length = es.length ∧ es.length ≤ 4 ∧
      (∀ j (hj : j < opts.length),
        (labelL j).isPrefixOf (upperl (pyStrip (opts.get ⟨j, hj⟩))) = true) ∧
      jget r kCorrect = some (.str c) ∧
      upperl (pyStrip c) ∈ lettersL ∧
      (∀ c0, correctKey q = .ok c0 → c0 ∉ lettersL → c = ['A']) ∧
      (∀ c0, correctKey q = .ok c0 → c0 ∈ lettersL →
        jget q kCorrect = some (.str c)) := by
  obtain ⟨kvs, es, c, hq, hs, hopt, hcor, hlet, hforce, hkeep⟩ :=
    repairItem_ok_core q r h
  refine ⟨es, _, c, hs, rfl, hopt, ?_, srcOptEntries_le_four q es hs, ?_,
    hcor, hlet, hforce, hkeep⟩
  · rw [fixAll_length, List.length_map]
  · intro j hj
    have := fixAll_labels (es.map (fun o => pyStrip (pyStr o))) 0 j hj
    simpa using this

/-- Witness for C4 at the concrete two-option item. -/
theorem repair_item_invariants_witness :
    repairItem cexItemC4 =
      .ok (.obj [(kOptions, .arr [.str ("A) x".toList), .str ("B) y".toList)]),
                 (kCorrect, .str (" b ".toList)),
                 (kExplanation, .str ("No explanation provided.".toList))]) ∧
    ∃ es opts c,
      srcOptEntries cexItemC4 = .ok es ∧
      opts = fixAll 0 (es.map (fun o => pyStrip (pyStr o))) ∧
      jget (.obj [(kOptions, .arr [.str ("A) x".toList), .str ("B) y".toList)]),
                  (kCorrect, .str (" b ".toList)),
                  (kExplanation, .str ("No explanation provided.".toList))]) kOptions =
        some (.arr (opts.map Json.str)) ∧
      opts.length = es.length ∧ es.length ≤ 4 ∧
      (∀ j (hj : j < opts.length),
        (labelL j).isPrefixOf (upperl (pyStrip (opts.get ⟨j, hj⟩))) = true) ∧
      jget (.obj [(kOptions, .arr [.str ("A) x".toList), .str ("B) y".toList)]),
                  (kCorrect, .str (" b ".toList)),
                  (kExplanation, .str ("No explanation provided.".toList))]) kCorrect =
        some (.str c) ∧
      upperl (pyStrip c) ∈ lettersL ∧
      (∀ c0, correctKey cexItemC4 = .ok c0 → c0 ∉ lettersL → c = ['A']) ∧
      (∀ c0, correctKey cexItemC4 = .ok c0 → c0 ∈ lettersL →
        jget cexItemC4 kCorrect = some (.str c)) :=
  ⟨rfl, repair_item_invariants cexItemC4 _ rfl⟩

/-- C5: the unlabeled options list `["foo","bar","baz","qux"]` normalizes to
`["A) foo","B) bar","C) baz","D) qux"]`; in general the per-position fix
prepends `"{label} "` exactly when the trimmed, uppercased option does not
already start with the expected label, and leaves an already-labeled option
unchanged. -/
theorem option_labeling_spec :
    (∀ q r kvs, q = .obj kvs → repairItem q = .ok r →
      List.lookup kOptions kvs =
        some (.arr [.str ("foo".toList), .str ("bar".toList),
                    .str ("baz".toList), .str ("qux".toList)]) →
      jget r kOptions =
        some (.arr [.str ("A) foo".toList), .str ("B) bar".toList),
                    .str ("C) baz".toList), .str ("D) qux".toList)])) ∧
    (∀ i o, (labelL i).isPrefixOf (upperl (pyStrip o)) = true → fixOpt i o = o) ∧
    (∀ i o, (labelL i).isPrefixOf (upperl (pyStrip o)) = false →
      fixOpt i o = labelL i ++ ' ' :: o) := by
  refine ⟨?_, ?_, ?_⟩
  · intro q r kvs hq h hl
    subst hq
    obtain ⟨kvs', es, c, hq', hs, hopt, hcor, hlet, hforce⟩ :=
      repairItem_ok_core (.obj kvs) r h
    injection hq' with hkvs
    subst hkvs
    have hs2 := srcOptEntries_of_jget_arr _ kvs hl
    rw [hs] at hs2
    injection hs2 with hes
    subst hes
    rw [hopt]
    rfl
  · intro i o h
    unfold fixOpt
    rw [if_pos h]
  · intro i o h
    unfold fixOpt
    rw [if_neg (by rw [h]; exact Bool.false_ne_true)]

/-- Witness for C5 at a concrete item carrying the unlabeled options. -/
theorem option_labeling_spec_witness :
    jget (.obj [(kOptions, .arr [.str ("A) foo".toList), .str ("B) bar".toList),
                                 .str ("C) baz".toList), .str ("D) qux".toList)]),
                (kCorrect, .str ['A']),
                (kExplanation, .str ("No explanation provided.".toList))]) kOptions =
      some (.arr [.str ("A) foo".toList), .str ("B) bar".toList),
                  .str ("C) baz".toList), .str ("D) qux".toList)]) :=
  option_labeling_spec.1
    (.obj [(kOptions, .arr [.str ("foo".toList), .str ("bar".toList),
                            .str ("baz".toList), .str ("qux".toList)]),
           (kCorrect, .str ("e".toList))])
    (.obj [(kOptions, .arr [.str ("A) foo".toList), .str ("B) bar".toList),
                            .str ("C) baz".toList), .str ("D) qux".toList)]),
           (kCorrect, .str ['A']),
           (kExplanation, .str ("No explanation provided.".toList))])
    [(kOptions, .arr [.str ("foo".toList), .str ("bar".toList),
                      .str ("baz".toList), .str ("qux".toList)]),
     (kCorrect, .str ("e".toList))]
    rfl rfl rfl

/-- Whether three backticks start `x ++ …` only depends on `x` and the next
two characters when `x` is non-empty. -/
theorem isPre_ticks_pad (x rest : List Char) (hx : x ≠ []) :
    ticks.isPrefixOf (x ++ (bq :: bq :: rest)) = ticks.isPrefixOf (x ++ [bq, bq]) := by
  rcases x with _ | ⟨a, _ | ⟨b, _ | ⟨c, xs⟩⟩⟩
  · exact absurd rfl hx
  · simp [ticks, List.isPrefixOf]
  · simp [ticks, List.isPrefixOf]
  · simp [ticks, List.isPrefixOf]

/-- The lazy group stops exactly at a closing fence placed after fence-free
text. -/
theorem takeUntil_of_noFence (g p2 : List Char)
    (h : occursSub ticks (g ++ [bq, bq]) = false) :
    takeUntilTicks (g ++ ticks ++ p2) = some g := by
  induction g with
  | nil =>
    rw [List.nil_append, show ticks ++ p2 = bq :: (bq :: bq :: p2) from by
      simp [ticks]]
    unfold takeUntilTicks
    rw [if_pos (by simp [ticks, List.isPrefixOf])]
  | cons c g' ih =>
    simp only [List.cons_append, occursSub, Bool.or_eq_false_iff] at h
    have h1 : ticks.isPrefixOf (c :: (g' ++ [bq, bq])) = false := h.1
    have h2 : occursSub ticks (g' ++ [bq, bq]) = false := h.2
    have hc : ticks.isPrefixOf ((c :: g') ++ (bq :: bq :: (bq :: p2))) = false := by
      rw [isPre_ticks_pad (c :: g') (bq :: p2) (List.cons_ne_nil _ _)]
      simpa using h1
    show takeUntilTicks ((c :: g') ++ ticks ++ p2) = some (c :: g')
    rw [show (c :: g') ++ ticks ++ p2 = c :: (g' ++ ticks ++ p2) from by simp]
    unfold takeUntilTicks
    rw [if_neg (by
      rw [show c :: (g' ++ ticks ++ p2) = (c :: g') ++ (bq :: bq :: (bq :: p2)) from by
        simp [ticks]]
      rw [hc]
      exact Bool.false_ne_true)]
    rw [ih h2]
    rfl

/-- The fence regex matches at the first fence opening when the preceding
text contains no fence. -/
theorem fenceSearch_main (p1 tail : List Char)
    (hp1 : occursSub ticks (p1 ++ [bq, bq]) = false)
    (g : List Char)
    (hbody : takeUntilTicks (if tagIsJson tail then tail.drop 4 else tail) = some g) :
    fenceSearch (p1 ++ ticks ++ tail) = some g := by
  induction p1 with
  | nil =>
    rw [List.nil_append, show ticks ++ tail = bq :: (bq :: bq :: tail) from by
      simp [ticks]]
    unfold fenceSearch
    rw [if_pos (by simp [ticks, List.isPrefixOf])]
    dsimp only
    simp only [List.drop_succ_cons, List.drop_zero]
    rw [hbody]
  | cons c p1' ih =>
    simp only [List.cons_append, occursSub, Bool.or_eq_false_iff] at hp1
    have h1 : ticks.isPrefixOf (c :: (p1' ++ [bq, bq])) = false := hp1.1
    show fenceSearch ((c :: p1') ++ ticks ++ tail) = some g
    rw [show (c :: p1') ++ ticks ++ tail = c :: (p1' ++ ticks ++ tail) from by simp]
    unfold fenceSearch
    rw [if_neg (by
      rw [show c :: (p1' ++ ticks ++ tail) = (c :: p1') ++ (bq :: bq :: (bq :: tail))
        from by simp [ticks]]
      rw [isPre_ticks_pad (c :: p1') (bq :: tail) (List.cons_ne_nil _ _)]
      rw [show (c :: p1') ++ [bq, bq] = c :: (p1' ++ [bq, bq]) from by simp, h1]
      exact Bool.false_ne_true)]
    exact ih hp1.2

/-- A `json` fence tag is four characters that lowercase to `json`. -/
theorem tag_json_shape (tag : List Char) (h : tag.map Char.toLower = "json".toList) :
    ∃ a b c d, tag = [a, b, c, d] ∧ a.toLower = 'j' ∧ b.toLower = 's' ∧
      c.toLower = 'o' ∧ d.toLower = 'n' := by
  rcases tag with _ | ⟨a, _ | ⟨b, _ | ⟨c, _ | ⟨d, _ | ⟨e, rest⟩⟩⟩⟩⟩
  · simp at h
  · simp at h
  · simp at h
  · simp at h
  · simp only [List.map_cons, List.map_nil] at h
    injection h with ha h
    injection h with hb h
    injection h with hc h
    injection h with hd h
    exact ⟨a, b, c, d, rfl, ha, hb, hc, hd⟩
  · simp at h

/-- A leading character that does not lowercase to `j` rules out the tag. -/
theorem tagIsJson_false_head (x : Char) (rest : List Char) (hx : x.toLower ≠ 'j') :
    tagIsJson (x :: rest) = false := by
  unfold tagIsJson
  rcases rest with _ | ⟨b, _ | ⟨c, _ | ⟨d, r⟩⟩⟩
  · rfl
  · rfl
  · rfl
  · simp [beq_eq_false_iff_ne.mpr hx]

/-- Python whitespace characters do not lowercase to `j`. -/
theorem pyWs_toLower_ne (c : Char) (h : pyWs c = true) : c.toLower ≠ 'j' := by
  simp only [pyWs, Bool.or_eq_true, beq_iff_eq] at h
  rcases h with ((((h | h) | h) | h) | h) | h <;> subst h <;> decide

/-- `dropWhile` over an all-satisfying prefix. -/
theorem dropWhile_append_all (p : Char → Bool) (a b : List Char)
    (ha : a.all p = true) : List.dropWhile p (a ++ b) = List.dropWhile p b := by
  induction a with
  | nil => rfl
  | cons x a' ih =>
    simp only [List.all_cons, Bool.and_eq_true] at ha
    simp only [List.cons_append, List.dropWhile_cons, ha.1, eq_self_iff_true, if_true]
    exact ih ha.2

/-- Stripping whitespace wrapped around text that starts with `[` and ends
with `]` returns exactly that text. -/
theorem pyStrip_ws_wrap (ws1 ws2 t : List Char)
    (h1 : ws1.all pyWs = true) (h2 : ws2.all pyWs = true)
    (hhead : t.head? = some '[') (hlast : t.getLast? = some ']') :
    pyStrip (ws1 ++ t ++ ws2) = t := by
  obtain ⟨t', ht⟩ : ∃ t', t = '[' :: t' := by
    cases t with
    | nil => simp at hhead
    | cons a s =>
      simp only [List.head?_cons, Option.some.injEq] at hhead
      exact ⟨s, by rw [hhead]⟩
  obtain ⟨t0, ht0⟩ : ∃ t0, t = t0 ++ [']'] := by
    rw [List.getLast?_eq_head?_reverse] at hlast
    cases hr : t.reverse with
    | nil => rw [hr] at hlast; simp at hlast
    | cons a s =>
      rw [hr] at hlast
      simp only [List.head?_cons, Option.some.injEq] at hlast
      subst hlast
      exact ⟨s.reverse, by rw [← List.reverse_reverse t, hr]; simp⟩
  unfold pyStrip
  rw [List.append_assoc, dropWhile_append_all pyWs ws1 (t ++ ws2) h1]
  have hstep1 : List.dropWhile pyWs (t ++ ws2) = t ++ ws2 := by
    rw [ht, List.cons_append, List.dropWhile_cons,
      if_neg (by decide : ¬ (pyWs '[') = true)]
  rw [hstep1]
  have hrev : (t ++ ws2).reverse = ws2.reverse ++ (']' :: t0.reverse) := by
    rw [ht0]
    simp
  rw [hrev, dropWhile_append_all pyWs ws2.reverse _ (by rw [List.all_reverse]; exact h2)]
  rw [List.dropWhile_cons, if_neg (by decide : ¬ (pyWs ']') = true)]
  rw [ht0]
  simp

/-- Well-formed options are left unchanged by coercion, trimming and label
fixing. -/
theorem wfOptList_roundtrip (l : List Json) :
    ∀ i, wfOptList i l = true →
      (fixAll i (l.map (fun o => pyStrip (pyStr o)))).map Json.str = l := by
  induction l with
  | nil => intro i _; rfl
  | cons o rest ih =>
    intro i h
    cases o with
    | str s =>
      simp only [wfOptList, Bool.and_eq_true] at h
      obtain ⟨⟨hstrip, hlab⟩, hrest⟩ := h
      have hs : pyStrip s = s := eq_of_beq hstrip
      simp only [List.map_cons, fixAll]
      rw [show pyStr (.str s) = s from rfl, hs]
      rw [show fixOpt i s = s from by
        unfold fixOpt
        rw [if_pos (by rw [hs]; exact hlab)]]
      rw [ih (i + 1) hrest]
    | null => simp [wfOptList] at h
    | bool b => simp [wfOptList] at h
    | num n => simp [wfOptList] at h
    | fnum x => simp [wfOptList] at h
    | nanc => simp [wfOptList] at h
    | infc neg => simp [wfOptList] at h
    | arr l2 => simp [wfOptList] at h
    | obj kvs2 => simp [wfOptList] at h

/-- Repairing a well-formed question object returns it unchanged. -/
theorem repairItem_wf (q : Json) (h : wellFormedItem q = true) :
    repairItem q = .ok q := by
  cases q with
  | obj kvs =>
    simp only [wellFormedItem, Bool.and_eq_true] at h
    obtain ⟨⟨⟨hnd, hopt⟩, hcor⟩, hexp⟩ := h
    cases hlo : List.lookup kOptions kvs with
    | none => rw [hlo] at hopt; exact absurd hopt (by simp)
    | some vo =>
      rw [hlo] at hopt
      cases vo with
      | arr l =>
        simp only [Bool.and_eq_true] at hopt
        obtain ⟨hl4, hwf⟩ := hopt
        have hlen : l.length = 4 := eq_of_beq hl4
        cases hlc : List.lookup kCorrect kvs with
        | none => rw [hlc] at hcor; exact absurd hcor (by simp)
        | some vc =>
          rw [hlc] at hcor
          cases vc with
          | str c =>
            have hc4 : c = ['A'] ∨ c = ['B'] ∨ c = ['C'] ∨ c = ['D'] := by
              simpa [lettersL] using hcor
            cases hle : List.lookup kExplanation kvs with
            | none => rw [hle] at hexp; exact absurd hexp (by simp)
            | some ve =>
              rw [hle] at hexp
              cases ve with
              | str e =>
                dsimp only at hexp
                have hsrc : srcOptEntries (.obj kvs) = .ok l := by
                  unfold srcOptEntries
                  rw [show pyGet (.obj kvs) kOptions (.arr []) =
                      .ok ((List.lookup kOptions kvs).getD (.arr [])) from rfl]
                  rw [hlo]
                  simp only [Option.getD_some, pySlice4]
                  rw [show l.take 4 = l from by rw [← hlen]; exact List.take_length l]
                  rfl
                have hrt := wfOptList_roundtrip l 0 hwf
                have hckeq : correctKey (.obj kvs) = .ok c := by
                  rw [show correctKey (.obj kvs) =
                      pyStripUpper (pyOr ((List.lookup kCorrect kvs).getD Json.null)
                        (.str [])) from rfl]
                  rw [hlc]
                  simp only [Option.getD_some]
                  rcases hc4 with h | h | h | h <;> subst h <;> rfl
                have hmem : c ∈ lettersL := by
                  rcases hc4 with h | h | h | h <;> subst h <;> decide
                unfold repairItem
                rw [hsrc]
                dsimp only
                rw [show (Json.arr ((fixAll 0 (l.map fun o =>
                    pyStrip (pyStr o))).map Json.str)) = Json.arr l from by rw [hrt]]
                rw [show jsonSet (.obj kvs) kOptions (.arr l) = .obj kvs from by
                  rw [show jsonSet (.obj kvs) kOptions (.arr l) =
                      .obj (dictInsert kvs kOptions (.arr l)) from rfl]
                  rw [dictInsert_self_id kOptions (.arr l) kvs hnd hlo]]
                rw [hckeq]
                dsimp only
                rw [if_pos hmem]
                rw [show jsonGetD (.obj kvs) kExplanation Json.null =
                    (List.lookup kExplanation kvs).getD Json.null from rfl]
                rw [hle]
                simp only [Option.getD_some]
                have htr : pyTruthy (.str e) = true := by
                  rw [show pyTruthy (Json.str e) = !e.isEmpty from rfl]
                  exact hexp
                simp only [htr]
                rfl
              | null => simp at hexp
              | bool b => simp at hexp
              | num n => simp at hexp
              | fnum x => simp at hexp
              | nanc => simp at hexp
              | infc neg => simp at hexp
              | arr l2 => simp at hexp
              | obj kvs2 => simp at hexp
          | null => simp at hcor
          | bool b => simp at hcor
          | num n => simp at hcor
          | fnum x => simp at hcor
          | nanc => simp at hcor
          | infc neg => simp at hcor
          | arr l2 => simp at hcor
          | obj kvs2 => simp at hcor
      | null => simp at hopt
      | bool b => simp at hopt
      | num n => simp at hopt
      | fnum x => simp at hopt
      | nanc => simp at hopt
      | infc neg => simp at hopt
      | str s => simp at hopt
      | obj kvs2 => simp at hopt
  | null => simp [wellFormedItem] at h
  | bool b => simp [wellFormedItem] at h
  | num n => simp [wellFormedItem] at h
  | fnum x => simp [wellFormedItem] at h
  | nanc => simp [wellFormedItem] at h
  | infc neg => simp [wellFormedItem] at h
  | str s => simp [wellFormedItem] at h
  | arr l => simp [wellFormedItem] at h

/-- Normalizing a list of well-formed items returns it unchanged. -/
theorem normalizeItems_wf (items : List Json)
    (h : ∀ q ∈ items, wellFormedItem q = true) :
    normalizeItems items = .ok items := by
  induction items with
  | nil => rfl
  | cons q rest ih =>
    unfold normalizeItems
    rw [repairItem_wf q (h q (by simp)), ih (fun r hr => h r (by simp [hr]))]

/-- A fence cannot start inside whitespace. -/
theorem occursSub_append_ws (a b : List Char) (ha : a.all pyWs = true) :
    occursSub ticks (a ++ b) = occursSub ticks b := by
  induction a with
  | nil => rfl
  | cons x a' ih =>
    simp only [List.all_cons, Bool.and_eq_true] at ha
    obtain ⟨hx1, ha2⟩ := ha
    have hne : x ≠ bq := by
      simp only [pyWs, Bool.or_eq_true, beq_iff_eq] at hx1
      rcases hx1 with ((((h | h) | h) | h) | h) | h <;> subst h <;> decide
    have hx : (bq == x) = false :=
      beq_eq_false_iff_ne.mpr (fun hh => hne hh.symm)
    simp only [List.cons_append, occursSub, List.append_eq]
    rw [show ticks.isPrefixOf (x :: (a' ++ b)) = false from by
      simp [ticks, List.isPrefixOf, hx]]
    rw [Bool.false_or]
    exact ih ha2

/-- A fence cannot straddle a separator character that is not a backtick. -/
theorem occursSub_sep (t0 X : List Char)
    (ht : occursSub ticks (t0 ++ [']']) = false)
    (hX : occursSub ticks X = false) :
    occursSub ticks (t0 ++ ']' :: X) = false := by
  induction t0 with
  | nil =>
    simp only [List.nil_append, occursSub]
    rw [show ticks.isPrefixOf (']' :: X) = false from by
      simp [ticks, List.isPrefixOf, (by decide : (bq == ']') = false)]]
    simpa using hX
  | cons c t0' ih =>
    simp only [List.cons_append, occursSub, List.append_eq,
      Bool.or_eq_false_iff] at ht ⊢
    refine ⟨?_, ih ht.2⟩
    · cases t0' with
      | nil =>
        simp [ticks, List.isPrefixOf, (by decide : (bq == ']') = false)]
      | cons d t0'' =>
        have := ht.1
        cases t0'' with
        | nil =>
          simp [ticks, List.isPrefixOf, (by decide : (bq == ']') = false)]
        | cons e t0''' =>
          simpa [ticks, List.isPrefixOf] using this

/-- C3 (amended): for prose before the fence containing no triple-backtick
run, an optional case-insensitive `json` tag, whitespace-padded fenced
content that is exactly the text of a valid JSON array of N ≥ 1 well-formed
question objects, and arbitrary prose after the closing fence, the POST
branch of `start_quiz` succeeds and initializes the session with exactly
those N question records, unchanged. -/
theorem normalize_roundtrip_fenced_json
    (p1 tag ws1 ws2 t p2 : List Char) (items : List Json)
    (prior : Option QuizSession)
    (hp1 : occursSub ticks (p1 ++ [bq, bq]) = false)
    (htag : tag = [] ∨ tag.map Char.toLower = "json".toList)
    (hws1 : ws1.all pyWs = true) (hws2 : ws2.all pyWs = true)
    (htk : occursSub ticks t = false)
    (hhead : t.head? = some '[') (hlast : t.getLast? = some ']')
    (hparse : jloads t = some (.arr items))
    (hne : items ≠ [])
    (hwf : ∀ q ∈ items, wellFormedItem q = true) :
    start_quiz_post (p1 ++ ticks ++ tag ++ ws1 ++ t ++ ws2 ++ ticks ++ p2) prior =
      .started (start_session items
        ((prior.map (fun s => s.lastExplanation)).getD .null)) := by
  obtain ⟨t', ht'⟩ : ∃ t', t = '[' :: t' := by
    cases t with
    | nil => simp at hhead
    | cons a s =>
      simp only [List.head?_cons, Option.some.injEq] at hhead
      exact ⟨s, by rw [hhead]⟩
  obtain ⟨t0, ht0⟩ : ∃ t0, t = t0 ++ [']'] := by
    rw [List.getLast?_eq_head?_reverse] at hlast
    cases hr : t.reverse with
    | nil => rw [hr] at hlast; simp at hlast
    | cons a s =>
      rw [hr] at hlast
      simp only [List.head?_cons, Option.some.injEq] at hlast
      subst hlast
      exact ⟨s.reverse, by rw [← List.reverse_reverse t, hr]; simp⟩
  have hocc : occursSub ticks ((ws1 ++ t ++ ws2) ++ [bq, bq]) = false := by
    rw [show (ws1 ++ t ++ ws2) ++ [bq, bq] = ws1 ++ (t ++ (ws2 ++ [bq, bq]))
      from by simp [List.append_assoc]]
    rw [occursSub_append_ws ws1 _ hws1]
    rw [ht0, show (t0 ++ [']']) ++ (ws2 ++ [bq, bq]) = t0 ++ ']' :: (ws2 ++ [bq, bq])
      from by simp]
    exact occursSub_sep t0 _ (by rw [← ht0]; exact htk)
      (by rw [occursSub_append_ws ws2 _ hws2]; decide)
  have htail : takeUntilTicks (ws1 ++ t ++ ws2 ++ ticks ++ p2) =
      some (ws1 ++ t ++ ws2) :=
    takeUntil_of_noFence _ p2 hocc
  have hbody : takeUntilTicks
      (if tagIsJson (tag ++ (ws1 ++ t ++ ws2 ++ ticks ++ p2)) then
        (tag ++ (ws1 ++ t ++ ws2 ++ ticks ++ p2)).drop 4
      else tag ++ (ws1 ++ t ++ ws2 ++ ticks ++ p2)) = some (ws1 ++ t ++ ws2) := by
    rcases htag with h0 | h4
    · subst h0
      rw [List.nil_append]
      have hfalse : tagIsJson (ws1 ++ t ++ ws2 ++ ticks ++ p2) = false := by
        cases ws1 with
        | nil =>
          rw [show ([] : List Char) ++ t ++ ws2 ++ ticks ++ p2 =
              '[' :: (t' ++ ws2 ++ ticks ++ p2) from by rw [ht']; simp]
          exact tagIsJson_false_head '[' _ (by decide)
        | cons w ws1' =>
          have hw : pyWs w = true := by
            simp only [List.all_cons, Bool.and_eq_true] at hws1
            exact hws1.1
          rw [show (w :: ws1') ++ t ++ ws2 ++ ticks ++ p2 =
              w :: (ws1' ++ t ++ ws2 ++ ticks ++ p2) from by simp]
          exact tagIsJson_false_head w _ (pyWs_toLower_ne w hw)
      rw [hfalse]
      simp only [Bool.false_eq_true, if_false]
      exact htail
    · obtain ⟨a, b, c, d, htag4, ha, hb, hc, hd⟩ := tag_json_shape tag h4
      subst htag4
      have htrue : tagIsJson ([a, b, c, d] ++ (ws1 ++ t ++ ws2 ++ ticks ++ p2)) =
          true := by
        show tagIsJson (a :: b :: c :: d :: (ws1 ++ t ++ ws2 ++ ticks ++ p2)) = true
        unfold tagIsJson
        simp [ha, hb, hc, hd]
      rw [htrue]
      simp only [eq_self_iff_true, if_true]
      rw [show ([a, b, c, d] ++ (ws1 ++ t ++ ws2 ++ ticks ++ p2)).drop 4 =
          ws1 ++ t ++ ws2 ++ ticks ++ p2 from by simp]
      exact htail
  have hraw : p1 ++ ticks ++ tag ++ ws1 ++ t ++ ws2 ++ ticks ++ p2 =
      p1 ++ ticks ++ (tag ++ (ws1 ++ t ++ ws2 ++ ticks ++ p2)) := by
    simp [List.append_assoc]
  have hfence : fenceSearch (p1 ++ ticks ++ tag ++ ws1 ++ t ++ ws2 ++ ticks ++ p2) =
      some (ws1 ++ t ++ ws2) := by
    rw [hraw]
    exact fenceSearch_main p1 _ hp1 _ hbody
  have hextract : extract_json_block
      (p1 ++ ticks ++ tag ++ ws1 ++ t ++ ws2 ++ ticks ++ p2) = t := by
    unfold extract_json_block
    rw [hfence]
    dsimp only
    rw [pyStrip_ws_wrap ws1 ws2 t hws1 hws2 hhead hlast]
    have hfind : findCharIdx '[' t = some 0 := by
      rw [ht']
      unfold findCharIdx
      rw [if_pos (by decide)]
    have hrfind : rfindCharIdx ']' t = some (t.length - 1) := by
      unfold rfindCharIdx
      rw [show t.reverse = ']' :: t0.reverse from by rw [ht0]; simp]
      unfold findCharIdx
      rw [if_pos (by decide)]
      simp
    rw [hfind, hrfind]
    dsimp only
    have hlen2 : 2 ≤ t.length := by
      rcases t with _ | ⟨x, _ | ⟨y, r⟩⟩
      · simp at hhead
      · simp only [List.head?_cons, Option.some.injEq] at hhead
        simp only [List.getLast?_singleton, Option.some.injEq] at hlast
        rw [hhead] at hlast
        exact absurd hlast (by decide)
      · simp
    rw [if_pos (by omega)]
    unfold pySliceIncl
    rw [List.drop_zero]
    rw [show t.length - 1 + 1 - 0 = t.length from by omega]
    exact List.take_length t
  unfold start_quiz_post
  rw [hextract, hparse]
  dsimp only
  rw [show items.isEmpty = false from by
    cases items with
    | nil => exact absurd rfl hne
    | cons a l => rfl]
  simp only [Bool.false_eq_true, if_false]
  rw [normalizeItems_wf items hwf]

/-- C3 counterexample: when the surrounding prose itself contains a fenced
span, the regex captures the prose's fence instead of the JSON block, and
the parse phase fails with the danger redirect — even though the input does
consist of prose surrounding a fenced block holding a valid JSON array of
one well-formed question object. -/
theorem normalize_fails_on_prose_with_fence :
    start_quiz_post cexRawC3 none = .dangerRedirect none ∧
    jloads wfText = some (.arr [wfItemJ]) ∧
    wellFormedItem wfItemJ = true :=
  ⟨rfl, rfl, by decide⟩

/-- Witness for C3 (amended) at a concrete fenced response. -/
theorem normalize_roundtrip_fenced_json_witness :
    start_quiz_post (("Result: ".toList) ++ ticks ++ ("json".toList) ++
        ("\n".toList) ++ wfText ++ ("\n".toList) ++ ticks ++ (" thanks".toList))
      none = .started (start_session [wfItemJ] .null) :=
  normalize_roundtrip_fenced_json ("Result: ".toList) ("json".toList)
    ("\n".toList) ("\n".toList) wfText (" thanks".toList) [wfItemJ] none
    (by decide) (Or.inr rfl) (by decide) (by decide) (by decide) rfl rfl rfl
    (List.cons_ne_nil _ _)
    (by
      intro q hq
      rw [List.mem_singleton] at hq
      subst hq
      decide)
